import Mathlib

/-!
Shallow embedding of the collection-and-normalization core of the
generative-ai sentiment scraping repository (two pipelines:
src/scraping/gdelt_scraping.py and src/scraping/youtube_scraping.py),
together with proofs settling the frozen claims about it.

Conventions used throughout:
- Python dicts/JSON payloads are modelled by the mutual inductive `Json`;
  raising a Python exception is modelled by `Except PyErr`.
- CPython stdlib behaviour that the code relies on (datetime.strptime with
  format Y m d H M S, datetime.fromisoformat, int(), comparison of naive and
  aware datetimes) is embedded faithfully enough for the claims; each model
  notes its scope in its doc comment.  Behaviour was cross-checked against
  CPython 3.11.
-/

/-! ## A JSON-like value type (Python dict/list/str/int/bool/None payloads) -/

mutual

inductive Json where
  | null : Json
  | bool (b : Bool) : Json
  | num (n : Int) : Json
  | str (s : String) : Json
  | arr (xs : JsonArr) : Json
  | obj (fs : JsonObj) : Json
deriving Repr

inductive JsonArr where
  | nil : JsonArr
  | cons (hd : Json) (tl : JsonArr) : JsonArr
deriving Repr

inductive JsonObj where
  | nil : JsonObj
  | cons (k : String) (v : Json) (tl : JsonObj) : JsonObj
deriving Repr

end

mutual

def Json.beq : Json → Json → Bool
  | .null, .null => true
  | .bool a, .bool b => a == b
  | .num a, .num b => a == b
  | .str a, .str b => a == b
  | .arr a, .arr b => JsonArr.beq a b
  | .obj a, .obj b => JsonObj.beq a b
  | _, _ => false

def JsonArr.beq : JsonArr → JsonArr → Bool
  | .nil, .nil => true
  | .cons x xs, .cons y ys => Json.beq x y && JsonArr.beq xs ys
  | _, _ => false

def JsonObj.beq : JsonObj → JsonObj → Bool
  | .nil, .nil => true
  | .cons k1 v1 xs, .cons k2 v2 ys => k1 == k2 && Json.beq v1 v2 && JsonObj.beq xs ys
  | _, _ => false

end

mutual

theorem Json.beq_iff : ∀ a b : Json, Json.beq a b = true ↔ a = b
  | .null, b => by cases b <;> simp [Json.beq]
  | .bool x, b => by cases b <;> simp [Json.beq]
  | .num x, b => by cases b <;> simp [Json.beq]
  | .str x, b => by cases b <;> simp [Json.beq]
  | .arr x, b => by cases b <;> simp [Json.beq, JsonArr.beq_iff_arr x _]
  | .obj x, b => by cases b <;> simp [Json.beq, JsonObj.beq_iff_obj x _]

theorem JsonArr.beq_iff_arr : ∀ a b : JsonArr, JsonArr.beq a b = true ↔ a = b
  | .nil, b => by cases b <;> simp [JsonArr.beq]
  | .cons x xs, b => by
      cases b <;> simp [JsonArr.beq, Json.beq_iff x _, JsonArr.beq_iff_arr xs _]

theorem JsonObj.beq_iff_obj : ∀ a b : JsonObj, JsonObj.beq a b = true ↔ a = b
  | .nil, b => by cases b <;> simp [JsonObj.beq]
  | .cons k x xs, b => by
      cases b <;> simp [JsonObj.beq, Json.beq_iff x _, JsonObj.beq_iff_obj xs _, and_assoc]

end

instance : DecidableEq Json := fun a b =>
  decidable_of_iff (Json.beq a b = true) (Json.beq_iff a b)

instance : DecidableEq JsonArr := fun a b =>
  decidable_of_iff (JsonArr.beq a b = true) (JsonArr.beq_iff_arr a b)

instance : DecidableEq JsonObj := fun a b =>
  decidable_of_iff (JsonObj.beq a b = true) (JsonObj.beq_iff_obj a b)

/-- Conversion of a `JsonArr` to a plain list, for iteration. -/
def JsonArr.toList : JsonArr → List Json
  | .nil => []
  | .cons x xs => x :: JsonArr.toList xs

/-- Python exceptions that the modelled code can raise. -/
inductive PyErr where
  | keyErr (k : String)
  | typeErr (msg : String)
  | valueErr (msg : String)
  | attrErr (msg : String)
deriving DecidableEq, Repr

/-- First-occurrence lookup in the modelled dict, with a default value:
Python `d.get(k, default)` on a dict known to be a dict. -/
def objGetD : JsonObj → String → Json → Json
  | .nil, _, d => d
  | .cons k0 v rest, k, d => if k0 = k then v else objGetD rest k d

/-- Key-membership test on the modelled dict. -/
def objHasKey : JsonObj → String → Bool
  | .nil, _ => false
  | .cons k0 _ rest, k => if k0 = k then true else objHasKey rest k

/-- Python subscript `x[k]` with a string key: KeyError on a dict without the
key, TypeError on any non-dict value. -/
def jsonSubscript (x : Json) (k : String) : Except PyErr Json :=
  match x with
  | .obj fs => if objHasKey fs k then .ok (objGetD fs k .null) else .error (.keyErr k)
  | _ => .error (.typeErr "value is not subscriptable by a string key")

/-- Python attribute access pattern `x.get(...)`: only dict values have the
method; anything else raises AttributeError. -/
def asObj : Json → Except PyErr JsonObj
  | .obj fs => .ok fs
  | _ => .error (.attrErr "value has no attribute get")

/-- String containment check on character lists, used for Python `k in s`
when `s` is a string (substring test). -/
def listIsSubseg (pat : List Char) : List Char → Bool
  | [] => pat = []
  | c :: rest => (pat.isPrefixOf (c :: rest)) || listIsSubseg pat rest

/-- Membership of a string among the elements of a modelled JSON array,
used for Python `k in xs` when `xs` is a list. -/
def arrHasStr : JsonArr → String → Bool
  | .nil, _ => false
  | .cons x xs, k => (x = Json.str k : Bool) || arrHasStr xs k

/-- Python `k in data` for a string `k`: key membership on dicts, element
membership on lists, substring test on strings, TypeError otherwise. -/
def pyContains (data : Json) (k : String) : Except PyErr Bool :=
  match data with
  | .obj fs => .ok (objHasKey fs k)
  | .arr xs => .ok (arrHasStr xs k)
  | .str s => .ok (listIsSubseg k.data s.data)
  | _ => .error (.typeErr "argument of this type is not iterable")

/-- Keys of a modelled dict, as JSON strings (Python iterates dict keys). -/
def objKeysAsJson : JsonObj → List Json
  | .nil => []
  | .cons k _ rest => Json.str k :: objKeysAsJson rest

/-- Python `for x in data`: lists iterate elements, strings iterate
one-character strings, dicts iterate keys, anything else raises TypeError. -/
def jsonToItems (data : Json) : Except PyErr (List Json) :=
  match data with
  | .arr xs => .ok xs.toList
  | .str s => .ok (s.data.map (fun c => Json.str (String.mk [c])))
  | .obj fs => .ok (objKeysAsJson fs)
  | _ => .error (.typeErr "object is not iterable")

/-! ## Deduplication

The article pipeline deduplicates with pandas
`df.drop_duplicates(subset=[...])` (gdelt_scraping.py line 191), which keeps
the first row carrying each key and preserves row order.  The video pipeline
deduplicates with the dict comprehension
`unique_videos = v["video_id"]: v for v in all_videos` followed by
`list(unique_videos.values())` (youtube_scraping.py lines 74-77): insertion
order of first key occurrence, value overwritten on repeat (last write wins).
-/

/-- Boolean membership for keys, kept self-contained for easy lemmas. -/
def memB {κ : Type} [DecidableEq κ] (k : κ) : List κ → Bool
  | [] => false
  | x :: rest => if x = k then true else memB k rest

/-- Worker for first-occurrence deduplication: drops an element whose key was
already seen, otherwise keeps it and records its key. -/
def dedupFirstAux {α κ : Type} [DecidableEq κ] (key : α → κ) : List κ → List α → List α
  | _, [] => []
  | seen, x :: xs =>
    if memB (key x) seen then dedupFirstAux key seen xs
    else x :: dedupFirstAux key (key x :: seen) xs

/-- Model of pandas `DataFrame.drop_duplicates(subset=...)` with the default
keep policy: the first row with each key value is retained, in order. -/
def drop_duplicates {α κ : Type} [DecidableEq κ] (key : α → κ) (xs : List α) : List α :=
  dedupFirstAux key [] xs

/-- Model of a Python dict insertion `d[k] = v`: overwrite in place if the key
exists, else append at the end (dicts preserve insertion order of keys). -/
def insertLast {κ α : Type} [DecidableEq κ] (k : κ) (v : α) : List (κ × α) → List (κ × α)
  | [] => [(k, v)]
  | (k0, v0) :: rest => if k0 = k then (k0, v) :: rest else (k0, v0) :: insertLast k v rest

/-- Model of building the Python dict comprehension keyed by `key`. -/
def dictOfList {α κ : Type} [DecidableEq κ] (key : α → κ) (xs : List α) : List (κ × α) :=
  xs.foldl (fun acc a => insertLast (key a) a acc) []

/-- Model of `list((key(v): v for v in xs).values())`: at most one element
per key, the last-seen element for a key winning, keys in first-seen order. -/
def dedupLast {α κ : Type} [DecidableEq κ] (key : α → κ) (xs : List α) : List α :=
  (dictOfList key xs).map Prod.snd

/-! ## Record types of the two pipelines -/

/-- One raw article record as built in `fetch_gdelt_chunk`
(gdelt_scraping.py lines 103-118).  Field values come from `art.get(...)`
and may be arbitrary JSON; `keyword` and `source` are set by the scraper. -/
structure ArticleRec where
  url : Json
  title : Json
  source_domain : Json
  language : Json
  country : Json
  published_at : Json
  tone : Json
  keyword : String
  source : String
deriving DecidableEq, Repr

/-- One article row after `scrape_gdelt` appends the derived
`published_at_iso` column (gdelt_scraping.py line 187). -/
structure ArticleRow where
  art : ArticleRec
  published_at_iso : Option String
deriving DecidableEq, Repr

/-- One video record as built in `search_videos`
(youtube_scraping.py lines 54-62). -/
structure VideoRec where
  video_id : Json
  video_title : Json
  channel : Json
  video_published_at : Json
  keyword : String
deriving DecidableEq, Repr

/-- One normalized comment record as built in `fetch_comments_for_video`
(youtube_scraping.py lines 137-149). -/
structure CommentRec where
  video_id : Json
  video_title : Json
  channel : Json
  video_published_at : Json
  comment_id : Json
  comment_text : Json
  comment_likes : Int
  comment_published_at : String
  keyword : String
deriving DecidableEq, Repr

/-- The article-pipeline natural key: URL plus keyword
(gdelt_scraping.py line 191, `subset=["url", "keyword"]`). -/
def articleKey (row : ArticleRow) : Json × String :=
  (row.art.url, row.art.keyword)

/-- Deduplication stage of the article pipeline:
`df.drop_duplicates(subset=["url", "keyword"])`. -/
def dedupArticleRows (rows : List ArticleRow) : List ArticleRow :=
  drop_duplicates articleKey rows

/-- Deduplication stage of the video pipeline
(youtube_scraping.py lines 74-77), keyed on the video id alone. -/
def dedupVideos (vs : List VideoRec) : List VideoRec :=
  dedupLast (fun v : VideoRec => v.video_id) vs

/-! ## Calendar arithmetic (proleptic Gregorian, as Python datetime uses) -/

/-- Gregorian leap-year test. -/
def isLeap (y : Nat) : Bool :=
  y % 4 = 0 && (y % 100 ≠ 0 || y % 400 = 0)

/-- Number of days in a month of a given year (0 for an invalid month). -/
def daysInMonth (y mo : Nat) : Nat :=
  match mo with
  | 1 => 31
  | 2 => if isLeap y then 29 else 28
  | 3 => 31
  | 4 => 30
  | 5 => 31
  | 6 => 30
  | 7 => 31
  | 8 => 31
  | 9 => 30
  | 10 => 31
  | 11 => 30
  | 12 => 31
  | _ => 0

/-- Days in the months of year `y` strictly before month `mo`. -/
def daysBeforeMonth (y mo : Nat) : Nat :=
  let base : Nat :=
    match mo with
    | 1 => 0
    | 2 => 31
    | 3 => 59
    | 4 => 90
    | 5 => 120
    | 6 => 151
    | 7 => 181
    | 8 => 212
    | 9 => 243
    | 10 => 273
    | 11 => 304
    | 12 => 334
    | _ => 365
  if 3 ≤ mo ∧ isLeap y then base + 1 else base

/-- Days in all years strictly before year `y` (year 1 is the first year). -/
def daysBeforeYear (y : Nat) : Nat :=
  365 * (y - 1) + (y - 1) / 4 - (y - 1) / 100 + (y - 1) / 400

/-- Proleptic-Gregorian ordinal of a date, day 0001-01-01 having ordinal 1
(Python `date.toordinal`). -/
def toOrdinal (y mo d : Nat) : Nat :=
  daysBeforeYear y + daysBeforeMonth y mo + d

/-- Microseconds elapsed from 0001-01-01 00:00:00 to the given civil instant;
used to compare timezone-aware datetimes (only differences matter). -/
def epochMicros (y mo d h mi s micro : Nat) : Int :=
  (((toOrdinal y mo d - 1) * 86400 + h * 3600 + mi * 60 + s : Nat) : Int) * 1000000 + micro

/-! ## The TimeWindower (`generate_monthly_ranges`, gdelt_scraping.py 20-43) -/

/-- A Python `datetime` value: six civil fields, compared lexicographically
(sub-second precision never arises in the modelled code). -/
structure DT where
  year : Nat
  month : Nat
  day : Nat
  hour : Nat
  minute : Nat
  second : Nat
deriving DecidableEq, Repr

/-- Lexicographic less-or-equal on datetimes, as Python compares them. -/
def DT.leB (a b : DT) : Bool :=
  if a.year ≠ b.year then a.year < b.year
  else if a.month ≠ b.month then a.month < b.month
  else if a.day ≠ b.day then a.day < b.day
  else if a.hour ≠ b.hour then a.hour < b.hour
  else if a.minute ≠ b.minute then a.minute < b.minute
  else a.second ≤ b.second

/-- Lexicographic strict order on datetimes. -/
def DT.ltB (a b : DT) : Bool :=
  if a.year ≠ b.year then a.year < b.year
  else if a.month ≠ b.month then a.month < b.month
  else if a.day ≠ b.day then a.day < b.day
  else if a.hour ≠ b.hour then a.hour < b.hour
  else if a.minute ≠ b.minute then a.minute < b.minute
  else a.second < b.second

/-- Python `min(a, b)`: the second argument only wins when strictly smaller. -/
def dtMin (a b : DT) : DT :=
  if DT.ltB b a then b else a

/-- Model of `current.replace(year=..., month=..., day=1)` for the two
branches at gdelt_scraping.py lines 31-34: first day of the following month,
other fields kept. -/
def nextMonth (c : DT) : DT :=
  if c.month = 12 then ⟨c.year + 1, 1, 1, c.hour, c.minute, c.second⟩
  else ⟨c.year, c.month + 1, 1, c.hour, c.minute, c.second⟩

/-- Model of `dt - timedelta(seconds=1)` on a datetime. -/
def dtSubOneSec (d : DT) : DT :=
  if d.second > 0 then ⟨d.year, d.month, d.day, d.hour, d.minute, d.second - 1⟩
  else if d.minute > 0 then ⟨d.year, d.month, d.day, d.hour, d.minute - 1, 59⟩
  else if d.hour > 0 then ⟨d.year, d.month, d.day, d.hour - 1, 59, 59⟩
  else if d.day > 1 then ⟨d.year, d.month, d.day - 1, 23, 59, 59⟩
  else if d.month > 1 then ⟨d.year, d.month - 1, daysInMonth d.year (d.month - 1), 23, 59, 59⟩
  else ⟨d.year - 1, 12, 31, 23, 59, 59⟩

/-- Model of `end.replace(hour=23, minute=59, second=59)`. -/
def clampEnd (e : DT) : DT :=
  ⟨e.year, e.month, e.day, 23, 59, 59⟩

/-- One monthly chunk.  The Python code stores a dict with keys
start and end; `end` is a Lean keyword, so the second field is `stop`. -/
structure Chunk where
  start : DT
  stop : DT
deriving DecidableEq, Repr

/-- The while-loop of `generate_monthly_ranges` (gdelt_scraping.py 29-41),
written with explicit fuel; each iteration advances `current` by one month,
so the fuel chosen by `generate_monthly_ranges` is exactly enough. -/
def genLoop : Nat → DT → DT → List Chunk
  | 0, _, _ => []
  | fuel + 1, current, endD =>
    if DT.leB current endD then
      ⟨⟨current.year, current.month, current.day, 0, 0, 0⟩,
        dtMin (dtSubOneSec (nextMonth current)) (clampEnd endD)⟩ ::
        genLoop fuel (nextMonth current) endD
    else []

/-- A calendar date, as parsed by `datetime.fromisoformat` from a
`YYYY-MM-DD` string (time fields zero after parsing). -/
structure PyDate where
  year : Nat
  month : Nat
  day : Nat
deriving DecidableEq, Repr

/-- Validity of a parsed date, as guaranteed by `datetime.fromisoformat`. -/
def PyDate.valid (d : PyDate) : Prop :=
  1 ≤ d.year ∧ d.year ≤ 9999 ∧ 1 ≤ d.month ∧ d.month ≤ 12 ∧
    1 ≤ d.day ∧ d.day ≤ daysInMonth d.year d.month

instance (d : PyDate) : Decidable d.valid := by
  unfold PyDate.valid
  infer_instance

/-- Model of `generate_monthly_ranges(start_date, end_date)`
(gdelt_scraping.py 20-43): `current` starts at the first of the month of
`start_date` at midnight, and the loop runs while `current <= end`. -/
def generate_monthly_ranges (s e : PyDate) : List Chunk :=
  genLoop (e.year * 12 + e.month + 1 - (s.year * 12 + s.month))
    ⟨s.year, s.month, 1, 0, 0, 0⟩ ⟨e.year, e.month, e.day, 0, 0, 0⟩

/-- First day of the month with month index `idx` (index = year * 12 +
month - 1), at midnight; specification-side description of chunk starts. -/
def monthFirstDT (idx : Nat) : DT :=
  ⟨idx / 12, idx % 12 + 1, 1, 0, 0, 0⟩

/-- Last day of the month with month index `idx`, at 23:59:59;
specification-side description of interior chunk ends. -/
def monthLastDT (idx : Nat) : DT :=
  ⟨idx / 12, idx % 12 + 1, daysInMonth (idx / 12) (idx % 12 + 1), 23, 59, 59⟩

/-- Month index of a date: counts whole months from year 0. -/
def PyDate.monthIdx (d : PyDate) : Nat :=
  d.year * 12 + (d.month - 1)

/-- Closed-form description of the chunk list: `count` chunks starting at
month index `idx`, interior chunks covering whole months and the final chunk
ending at the clamped global end. -/
def mkChunks : Nat → Nat → DT → List Chunk
  | 0, _, _ => []
  | n + 1, idx, e =>
    ⟨monthFirstDT idx, if n = 0 then clampEnd e else monthLastDT idx⟩ :: mkChunks n (idx + 1) e

/-! ## The strptime model (`normalize_published_time`, gdelt_scraping.py 123-135)

CPython strptime compiles the format string Y m d H M S into a regular
expression whose fields have flexible widths: the year is exactly four
digits, while month, day, hour, minute and second each try a two-digit
match first and fall back to one digit (the day also accepts a space
followed by a nonzero digit, from the blank-padded directive class).  The
regex engine returns the first match found in depth-first order; strptime
then rejects the input if characters remain, and the datetime constructor
validates the field ranges.  The parsers below reproduce that search:
each field function tries its wider alternative first, and failure of the
rest of the pattern backtracks into the narrower one.
-/

/-- Numeric value of a decimal digit character. -/
def digitVal (c : Char) : Option Nat :=
  if c.isDigit then some (c.toNat - 48) else none

/-- Consume exactly two digits whose combined value satisfies `p`. -/
def take2 (p : Nat → Bool) (cs : List Char) : Option (Nat × List Char) :=
  match cs with
  | c1 :: c2 :: rest =>
    match digitVal c1, digitVal c2 with
    | some a, some b => if p (10 * a + b) then some (10 * a + b, rest) else none
    | _, _ => none
  | _ => none

/-- Consume exactly one digit whose value satisfies `p`. -/
def take1 (p : Nat → Bool) (cs : List Char) : Option (Nat × List Char) :=
  match cs with
  | c :: rest =>
    match digitVal c with
    | some a => if p a then some (a, rest) else none
    | none => none
  | [] => none

/-- Seconds field: two digits up to 61 (leap-second patterns), else one digit. -/
def spS (cs : List Char) : Option (Nat × List Char) :=
  (take2 (fun v => v ≤ 61) cs).orElse (fun _ => take1 (fun _ => true) cs)

/-- Minutes then seconds, with backtracking from the seconds field. -/
def spMS (cs : List Char) : Option (Nat × Nat × List Char) :=
  (match take2 (fun v => v ≤ 59) cs with
   | some (m, rest) => (spS rest).map (fun t => (m, t))
   | none => none).orElse (fun _ =>
    match take1 (fun _ => true) cs with
    | some (m, rest) => (spS rest).map (fun t => (m, t))
    | none => none)

/-- Hours then minutes and seconds, with backtracking. -/
def spHMS (cs : List Char) : Option (Nat × Nat × Nat × List Char) :=
  (match take2 (fun v => v ≤ 23) cs with
   | some (h, rest) => (spMS rest).map (fun t => (h, t))
   | none => none).orElse (fun _ =>
    match take1 (fun _ => true) cs with
    | some (h, rest) => (spMS rest).map (fun t => (h, t))
    | none => none)

/-- Day of month then the time fields, with backtracking; the day accepts
two digits 01-31, one digit 1-9, or a space followed by a digit 1-9. -/
def spDHMS (cs : List Char) : Option (Nat × Nat × Nat × Nat × List Char) :=
  ((match take2 (fun v => 1 ≤ v && v ≤ 31) cs with
    | some (d, rest) => (spHMS rest).map (fun t => (d, t))
    | none => none).orElse (fun _ =>
     match take1 (fun v => 1 ≤ v) cs with
     | some (d, rest) => (spHMS rest).map (fun t => (d, t))
     | none => none)).orElse (fun _ =>
    match cs with
    | ' ' :: c :: rest =>
      match digitVal c with
      | some v =>
        if 1 ≤ v then (spHMS rest).map (fun t => (v, t)) else none
      | none => none
    | _ => none)

/-- Month then the remaining fields, with backtracking. -/
def spMoDHMS (cs : List Char) : Option (Nat × Nat × Nat × Nat × Nat × List Char) :=
  (match take2 (fun v => 1 ≤ v && v ≤ 12) cs with
   | some (mo, rest) => (spDHMS rest).map (fun t => (mo, t))
   | none => none).orElse (fun _ =>
    match take1 (fun v => 1 ≤ v) cs with
    | some (mo, rest) => (spDHMS rest).map (fun t => (mo, t))
    | none => none)

/-- The full pattern: exactly four year digits, then the flexible fields.
Returns the matched values and the unconsumed characters of the first
match in backtracking order. -/
def strptimeYmdHMS (cs : List Char) : Option ((Nat × Nat × Nat × Nat × Nat × Nat) × List Char) :=
  match cs with
  | c1 :: c2 :: c3 :: c4 :: rest =>
    match digitVal c1, digitVal c2, digitVal c3, digitVal c4 with
    | some a, some b, some c, some d =>
      (spMoDHMS rest).map (fun t =>
        ((1000 * a + 100 * b + 10 * c + d, t.1, t.2.1, t.2.2.1, t.2.2.2.1, t.2.2.2.2.1),
          t.2.2.2.2.2))
    | _, _, _, _ => none
  | _ => none

/-- Validation performed by the Python datetime constructor. -/
def validCivil (y mo d h mi s : Nat) : Bool :=
  1 ≤ y && y ≤ 9999 && 1 ≤ mo && mo ≤ 12 && 1 ≤ d && d ≤ daysInMonth y mo &&
    h ≤ 23 && mi ≤ 59 && s ≤ 59

/-- Two-digit zero-padded decimal rendering (strftime m d H M S). -/
def pad2 (n : Nat) : String :=
  if n < 10 then "0" ++ toString n else toString n

/-- Rendering of `dt.strftime` with the ISO-like format used by the code.
The year directive is not zero padded on glibc platforms; all modelled
inputs have four-digit years, where the two agree. -/
def formatIsoYmdHMS (y mo d h mi s : Nat) : String :=
  toString y ++ "-" ++ pad2 mo ++ "-" ++ pad2 d ++ " " ++ pad2 h ++ ":" ++ pad2 mi ++ ":" ++ pad2 s

/-- Model of `normalize_published_time` (gdelt_scraping.py 123-135): empty
string is rejected up front, then strptime with the compact format; any
exception (no regex match, leftover characters, constructor validation)
yields None. -/
def normalize_published_time (seendate : String) : Option String :=
  if seendate = "" then none
  else
    match strptimeYmdHMS seendate.data with
    | some ((y, mo, d, h, mi, s), []) =>
      if validCivil y mo d h mi s then some (formatIsoYmdHMS y mo d h mi s) else none
    | _ => none

/-! ## The fromisoformat model (comment timestamps, youtube_scraping.py 126-132)

The comment path parses `snippet.get("publishedAt", "")` with
`datetime.fromisoformat` after replacing every Z with +00:00.  The model
below follows CPython 3.11 `datetime.fromisoformat` restricted to
calendar-date forms: a dashed or basic calendar date, an arbitrary single
separator character, a time of the shapes HH, HH:MM, HH:MM:SS, HHMM or
HHMMSS, an optional fraction introduced by a dot or comma (first six digits
significant), and an optional offset sign HH, sign HH:MM, sign HHMM,
sign HH:MM:SS or sign HHMMSS.  ISO week-date forms and fractional offsets
are outside the model.  Offsets are normalized without per-field range
checks, but must stay strictly below 24 hours in magnitude; an offset makes
the result timezone-aware.
-/

/-- Result of the modelled `datetime.fromisoformat`: a timezone-naive civil
datetime, or a timezone-aware instant (microseconds from the epoch of
`epochMicros`, offset already subtracted). -/
inductive PyDT where
  | naive (y mo d h mi s micro : Nat)
  | aware (instant : Int)
deriving DecidableEq, Repr

/-- Date part: dashed YYYY-MM-DD or basic YYYYMMDD, four year digits. -/
def parseIsoDate (cs : List Char) : Option (Nat × Nat × Nat × List Char) :=
  match cs with
  | c1 :: c2 :: c3 :: c4 :: rest =>
    match digitVal c1, digitVal c2, digitVal c3, digitVal c4 with
    | some a, some b, some c, some d =>
      let y := 1000 * a + 100 * b + 10 * c + d
      match rest with
      | '-' :: m1 :: m2 :: '-' :: d1 :: d2 :: rest2 =>
        match digitVal m1, digitVal m2, digitVal d1, digitVal d2 with
        | some ma, some mb, some da, some db =>
          some (y, 10 * ma + mb, 10 * da + db, rest2)
        | _, _, _, _ => none
      | m1 :: m2 :: d1 :: d2 :: rest2 =>
        match digitVal m1, digitVal m2, digitVal d1, digitVal d2 with
        | some ma, some mb, some da, some db =>
          some (y, 10 * ma + mb, 10 * da + db, rest2)
        | _, _, _, _ => none
      | _ => none
    | _, _, _, _ => none
  | _ => none

/-- Fractional part after the decimal separator: at least one digit, the
first six giving microseconds, further digits ignored. -/
def parseFrac (cs : List Char) : Option (Nat × List Char) :=
  let ds := cs.takeWhile Char.isDigit
  if ds.isEmpty then none
  else
    let significant := ds.take 6
    let v := significant.foldl (fun acc c => acc * 10 + (c.toNat - 48)) 0
    some (v * 10 ^ (6 - significant.length), cs.dropWhile Char.isDigit)

/-- Time part: HH, HH:MM, HH:MM:SS, HHMM or HHMMSS, then an optional
fraction attached to the microsecond field. -/
def parseIsoTime (cs : List Char) : Option (Nat × Nat × Nat × Nat × List Char) :=
  match take2 (fun _ => true) cs with
  | none => none
  | some (h, r1) =>
    let withFrac : Nat → Nat → List Char → Option (Nat × Nat × Nat × Nat × List Char) :=
      fun mi s r =>
        match r with
        | '.' :: r2 => (parseFrac r2).map (fun t => (h, mi, s, t.1, t.2))
        | ',' :: r2 => (parseFrac r2).map (fun t => (h, mi, s, t.1, t.2))
        | _ => some (h, mi, s, 0, r)
    match r1 with
    | ':' :: r2 =>
      match take2 (fun _ => true) r2 with
      | none => none
      | some (mi, r3) =>
        match r3 with
        | ':' :: r4 =>
          match take2 (fun _ => true) r4 with
          | none => none
          | some (s, r5) => withFrac mi s r5
        | _ => withFrac mi 0 r3
    | _ =>
      match take2 (fun _ => true) r1 with
      | some (mi, r3) =>
        match take2 (fun _ => true) r3 with
        | some (s, r5) => withFrac mi s r5
        | none => withFrac mi 0 r3
      | none => withFrac 0 0 r1

/-- Offset magnitude after the sign: HH, HH:MM, HHMM, HH:MM:SS or HHMMSS,
in seconds; fields are aggregated without individual range checks. -/
def parseOffMag (cs : List Char) : Option (Nat × List Char) :=
  match take2 (fun _ => true) cs with
  | none => none
  | some (oh, r1) =>
    match r1 with
    | ':' :: r2 =>
      match take2 (fun _ => true) r2 with
      | none => none
      | some (om, r3) =>
        match r3 with
        | ':' :: r4 =>
          match take2 (fun _ => true) r4 with
          | none => none
          | some (os, r5) => some (oh * 3600 + om * 60 + os, r5)
        | _ => some (oh * 3600 + om * 60, r3)
    | _ =>
      match take2 (fun _ => true) r1 with
      | some (om, r3) =>
        match take2 (fun _ => true) r3 with
        | some (os, r5) => some (oh * 3600 + om * 60 + os, r5)
        | none => some (oh * 3600 + om * 60, r3)
      | none => some (oh * 3600, r1)

/-- Validation of the date fields (the year is at most 9999 by construction). -/
def dateOK (y mo d : Nat) : Bool :=
  1 ≤ y && 1 ≤ mo && mo ≤ 12 && 1 ≤ d && d ≤ daysInMonth y mo

/-- Model of `datetime.fromisoformat` on the forms described above. -/
def pyFromIso (str : String) : Option PyDT :=
  match parseIsoDate str.data with
  | none => none
  | some (y, mo, d, rest) =>
    if dateOK y mo d then
      match rest with
      | [] => some (.naive y mo d 0 0 0 0)
      | _sep :: rest2 =>
        match parseIsoTime rest2 with
        | none => none
        | some (h, mi, s, micro, rest3) =>
          if h ≤ 23 && mi ≤ 59 && s ≤ 59 then
            match rest3 with
            | [] => some (.naive y mo d h mi s micro)
            | '+' :: r4 =>
              match parseOffMag r4 with
              | some (off, []) =>
                if off < 86400 then
                  some (.aware (epochMicros y mo d h mi s micro - (off : Int) * 1000000))
                else none
              | _ => none
            | '-' :: r4 =>
              match parseOffMag r4 with
              | some (off, []) =>
                if off < 86400 then
                  some (.aware (epochMicros y mo d h mi s micro + (off : Int) * 1000000))
                else none
              | _ => none
            | _ => none
          else none
    else none

/-- Replacement of every Z by +00:00, Python `s.replace("Z", "+00:00")`. -/
def replaceZChars : List Char → List Char
  | [] => []
  | c :: rest =>
    if c = 'Z' then '+' :: '0' :: '0' :: ':' :: '0' :: '0' :: replaceZChars rest
    else c :: replaceZChars rest

/-- String-level wrapper for the Z replacement. -/
def replaceZ (s : String) : String :=
  String.mk (replaceZChars s.data)

/-! ## Python int() and truthiness, for the likes count and falsy checks -/

/-- Whitespace characters stripped by int() around a numeric literal. -/
def pyWS (c : Char) : Bool :=
  c = ' ' || c = '\t' || c = '\n' || c = '\r'

/-- Digits of an integer literal with single underscores between digits. -/
def intDigitsAux (acc : Nat) : List Char → Option Nat
  | [] => some acc
  | '_' :: c :: rest =>
    match digitVal c with
    | some v => intDigitsAux (acc * 10 + v) rest
    | none => none
  | '_' :: [] => none
  | c :: rest =>
    match digitVal c with
    | some v => intDigitsAux (acc * 10 + v) rest
    | none => none

/-- Digit part of an int() literal: must begin with a digit. -/
def intDigits : List Char → Option Nat
  | c :: rest =>
    match digitVal c with
    | some v => intDigitsAux v rest
    | none => none
  | [] => none

/-- Model of Python `int(s)` on an ASCII string: surrounding whitespace is
stripped, an optional sign is honoured, digits may be separated by single
underscores. -/
def pyStrToInt (s : String) : Option Int :=
  match (s.data.dropWhile pyWS).reverse.dropWhile pyWS |>.reverse with
  | '+' :: rest => (intDigits rest).map (fun n => (n : Int))
  | '-' :: rest => (intDigits rest).map (fun n => -(n : Int))
  | cs => (intDigits cs).map (fun n => (n : Int))

/-- Model of Python `int(x)` on a JSON value: numbers pass through, booleans
coerce to 0 or 1, strings are parsed (ValueError on failure), anything else
raises TypeError. -/
def pyToInt (v : Json) : Except PyErr Int :=
  match v with
  | .num n => .ok n
  | .bool b => .ok (if b then 1 else 0)
  | .str s =>
    match pyStrToInt s with
    | some n => .ok n
    | none => .error (.valueErr "invalid literal for int with base 10")
  | _ => .error (.typeErr "int argument must be a string or a number")

/-- Python truthiness of the modelled JSON values (`if not x`). -/
def pyFalsy (v : Json) : Bool :=
  match v with
  | .null => true
  | .bool b => !b
  | .num n => n = 0
  | .str s => s = ""
  | .arr .nil => true
  | .obj .nil => true
  | _ => false

/-! ## GDELT record normalization and chunk fetch (gdelt_scraping.py 46-120) -/

/-- One article record from a raw article dict, gdelt_scraping.py 106-118:
every field is extracted with `.get` and a placeholder default. -/
def makeArticleRecord (kw : String) (art : JsonObj) : ArticleRec :=
  ⟨objGetD art "url" (.str ""), objGetD art "title" (.str ""),
    objGetD art "sourceDomain" (.str ""), objGetD art "language" (.str ""),
    objGetD art "domainCountryCode" (.str ""), objGetD art "seendate" (.str ""),
    objGetD art "tone" .null, kw, "gdelt"⟩

/-- The record-building loop over the articles array: each element must be a
dict (otherwise `.get` raises AttributeError at that element). -/
def buildArticleRecords (kw : String) : List Json → Except PyErr (List ArticleRec)
  | [] => .ok []
  | item :: rest => do
    let o ← asObj item
    let others ← buildArticleRecords kw rest
    .ok (makeArticleRecord kw o :: others)

/-- Outcome of the single GDELT page request, as distinguished by
`fetch_gdelt_chunk` (gdelt_scraping.py 70-93): a request-level exception
(network failure or non-success status raised by `raise_for_status`), an
empty body, a JSON decode failure, or a decoded JSON payload. -/
inductive GdeltOutcome where
  | requestFailure : GdeltOutcome
  | emptyBody : GdeltOutcome
  | jsonDecodeFailure : GdeltOutcome
  | payload (data : Json) : GdeltOutcome
deriving DecidableEq, Repr

/-- Model of `fetch_gdelt_chunk` past the request (gdelt_scraping.py 70-120):
every enumerated request-level failure returns the empty list; a payload
without an articles key returns the empty list; otherwise the records are
built from the articles value. -/
def fetch_gdelt_chunk (kw : String) (outcome : GdeltOutcome) : Except PyErr (List ArticleRec) :=
  match outcome with
  | .requestFailure => .ok []
  | .emptyBody => .ok []
  | .jsonDecodeFailure => .ok []
  | .payload data => do
    let hasArts ← pyContains data "articles"
    if hasArts then do
      let arts ← jsonSubscript data "articles"
      let items ← jsonToItems arts
      buildArticleRecords kw items
    else .ok []

/-- The accumulation loop of `scrape_gdelt` (gdelt_scraping.py 156-178) over
keyword-window cells, each cell described by its request outcome: failed
cells contribute nothing and the loop continues with the remaining cells. -/
def collect_gdelt : List (String × GdeltOutcome) → Except PyErr (List ArticleRec)
  | [] => .ok []
  | (kw, oc) :: rest => do
    let recs ← fetch_gdelt_chunk kw oc
    let more ← collect_gdelt rest
    .ok (recs ++ more)

/-- Application of `normalize_published_time` to a raw column value, as
`df["published_at"].apply(...)` does: a falsy value returns None via the
leading guard, a non-string truthy value makes strptime raise TypeError,
which the except clause turns into None. -/
def normalizePublishedField (v : Json) : Option String :=
  if pyFalsy v then none
  else
    match v with
    | .str s => normalize_published_time s
    | _ => none

/-- The derived-column step `df["published_at_iso"] = ...`
(gdelt_scraping.py 187): every record stays, gaining the derived field. -/
def addIsoColumn (recs : List ArticleRec) : List ArticleRow :=
  recs.map (fun r => ⟨r, normalizePublishedField r.published_at⟩)

/-- The article normalization-and-deduplication stage of `scrape_gdelt`
(gdelt_scraping.py 184-193), from accumulated raw records to output rows. -/
def gdeltRows (recs : List ArticleRec) : List ArticleRow :=
  dedupArticleRows (addIsoColumn recs)

/-! ## YouTube item handlers (youtube_scraping.py 51-62 and 118-152) -/

/-- Instant of a civil UTC time, for the aware datetime bounds built in
`scrape_youtube_comments` (youtube_scraping.py 186-194). -/
def utcInstant (y mo d h mi s : Nat) : Int :=
  epochMicros y mo d h mi s 0

/-- Handling of one search result item (youtube_scraping.py 51-62):
`item["id"]["videoId"]` and `item["snippet"]` are raw subscripts that
can raise; the snippet fields are defaulted with `.get`. -/
def processSearchItem (kw : String) (item : Json) : Except PyErr (Option VideoRec) := do
  let idObj ← jsonSubscript item "id"
  let vid ← jsonSubscript idObj "videoId"
  let snipJ ← jsonSubscript item "snippet"
  let snip ← asObj snipJ
  .ok (some ⟨vid, objGetD snip "title" (.str ""), objGetD snip "channelTitle" (.str ""),
    objGetD snip "publishedAt" (.str ""), kw⟩)

/-- Handling of one comment thread item (youtube_scraping.py 118-152).
The nested snippet access and `item["id"]` are raw subscripts; text,
timestamp and like count are defaulted with `.get`.  The timestamp is
parsed inside try-except (parse failure, including a non-string value,
skips the comment); a timezone-naive parse makes the subsequent comparison
with the aware bounds raise TypeError; an aware instant is range-filtered
inclusively.  The id subscript and the int coercion of the like count run
only for retained comments, inside the append. -/
def processCommentItem (startI endI : Int) (v : VideoRec) (item : Json) :
    Except PyErr (Option CommentRec) := do
  let s1 ← jsonSubscript item "snippet"
  let s2 ← jsonSubscript s1 "topLevelComment"
  let s3 ← jsonSubscript s2 "snippet"
  let snip ← asObj s3
  let commentText := objGetD snip "textDisplay" (.str "")
  let tsV := objGetD snip "publishedAt" (.str "")
  let likesV := objGetD snip "likeCount" (.num 0)
  match tsV with
  | .str ts =>
    match pyFromIso (replaceZ ts) with
    | none => .ok none
    | some (.naive _ _ _ _ _ _ _) =>
      .error (.typeErr "cannot compare offset-naive and offset-aware datetimes")
    | some (.aware t) =>
      if t < startI || endI < t then .ok none
      else do
        let cid ← jsonSubscript item "id"
        let likes ← pyToInt likesV
        .ok (some ⟨v.video_id, v.video_title, v.channel, v.video_published_at,
          cid, commentText, likes, ts, v.keyword⟩)
  | _ => .ok none

/-! ## The token-paginated fetch loop (youtube_scraping.py 33-69 and 103-158)

Both fetch loops share one shape: while the accumulated count is below the
cap, issue a request; a request-level exception breaks out with whatever was
accumulated; otherwise each item of the page is processed (appends increment
the count, and reaching the cap breaks mid page); then the loop continues
exactly when the response carries a truthy continuation token.  The mock
upstream is a list of scripted page results consumed one per request; a
request beyond the script behaves like a failing request.
-/

/-- One scripted page of the mock upstream: the items of the response and
its optional continuation token. -/
structure Page where
  items : List Json
  nextToken : Option String
deriving DecidableEq, Repr

/-- The inner for-loop over the items of one page: `fetched` counts
accumulated records, a processing exception propagates, an item processed
to None is skipped, and reaching the cap breaks out of the page. -/
def processPage {ρ : Type} (handler : Json → Except PyErr (Option ρ)) (maxN : Nat) :
    List Json → Nat → Except PyErr (List ρ × Nat)
  | [], fetched => .ok ([], fetched)
  | item :: rest, fetched =>
    match handler item with
    | .error e => .error e
    | .ok none => processPage handler maxN rest fetched
    | .ok (some r) =>
      if maxN ≤ fetched + 1 then .ok ([r], fetched + 1)
      else
        match processPage handler maxN rest (fetched + 1) with
        | .error e => .error e
        | .ok (rs, f2) => .ok (r :: rs, f2)

/-- The while-loop of both fetchers, returning the accumulated records and
the number of requests issued.  A failing request (or an exhausted script)
breaks with the accumulated records; a missing or empty continuation token
ends the loop after the current page. -/
def pagedFetch {ρ : Type} (handler : Json → Except PyErr (Option ρ)) (maxN : Nat) :
    List (Except Unit Page) → Nat → Except PyErr (List ρ × Nat)
  | pages, fetched =>
    if maxN ≤ fetched then .ok ([], 0)
    else
      match pages with
      | [] => .ok ([], 1)
      | .error _ :: _ => .ok ([], 1)
      | .ok p :: rest =>
        match processPage handler maxN p.items fetched with
        | .error e => .error e
        | .ok (rs, fetched2) =>
          match p.nextToken with
          | none => .ok (rs, 1)
          | some t =>
            if t = "" then .ok (rs, 1)
            else
              match pagedFetch handler maxN rest fetched2 with
              | .error e => .error e
              | .ok (rs2, n) => .ok (rs ++ rs2, n + 1)

/-- The comment fetch for one video (`fetch_comments_for_video`,
youtube_scraping.py 80-161) against a scripted upstream, with the aware
UTC bounds built by the orchestrator. -/
def fetch_comments_for_video (startI endI : Int) (maxC : Nat) (v : VideoRec)
    (upstream : List (Except Unit Page)) : Except PyErr (List CommentRec × Nat) :=
  pagedFetch (processCommentItem startI endI v) maxC upstream 0

/-- The per-keyword page loop of `search_videos` (youtube_scraping.py 30-69)
against a scripted upstream. -/
def searchKeywordLoop (kw : String) (maxV : Nat) (upstream : List (Except Unit Page)) :
    Except PyErr (List VideoRec × Nat) :=
  pagedFetch (processSearchItem kw) maxV upstream 0

/-- Accumulation of videos across the keyword loop of `search_videos`. -/
def collectVideos (maxV : Nat) : List (String × List (Except Unit Page)) →
    Except PyErr (List VideoRec)
  | [] => .ok []
  | (kw, up) :: rest => do
    let t ← searchKeywordLoop kw maxV up
    let more ← collectVideos maxV rest
    .ok (t.1 ++ more)

/-- Model of `search_videos` (youtube_scraping.py 15-77): accumulate the
per-keyword results in order, then deduplicate by video id. -/
def search_videos (maxV : Nat) (runs : List (String × List (Except Unit Page))) :
    Except PyErr (List VideoRec) :=
  (collectVideos maxV runs).map dedupVideos

/-- The per-video accumulation loop of `scrape_youtube_comments`
(youtube_scraping.py 204-214): comments of every video are appended in
order; no deduplication stage follows. -/
def collect_comments (startI endI : Int) (maxC : Nat) :
    List (VideoRec × List (Except Unit Page)) → Except PyErr (List CommentRec)
  | [] => .ok []
  | (v, up) :: rest => do
    let t ← fetch_comments_for_video startI endI maxC v up
    let more ← collect_comments startI endI maxC rest
    .ok (t.1 ++ more)

/-! ## Concrete sample data used by witnesses and counterexamples -/

/-- An article row with the given url, keyword and title, other fields
placeholder, as the pipeline would build it for an article without a
parsable timestamp. -/
def articleRowOf (url kw title : String) : ArticleRow :=
  ⟨⟨.str url, .str title, .str "", .str "", .str "", .str "", .null, kw, "gdelt"⟩, none⟩

/-- A video record with the given id and keyword. -/
def videoOf (vid kw : String) : VideoRec :=
  ⟨.str vid, .str "Demo video", .str "Demo channel", .str "2022-05-01T00:00:00Z", kw⟩

/-- The snippet dict of a comment item with the given timestamp and
like-count value. -/
def commentSnippet (ts : String) (likes : Json) : Json :=
  .obj (.cons "textDisplay" (.str "nice video")
    (.cons "publishedAt" (.str ts) (.cons "likeCount" likes .nil)))

/-- A full comment thread item with the standard nested structure. -/
def commentItem (ts : String) (likes : Json) : Json :=
  .obj (.cons "snippet"
    (.obj (.cons "topLevelComment" (.obj (.cons "snippet" (commentSnippet ts likes) .nil)) .nil))
    (.cons "id" (.str "c1") .nil))

/-- A search result item with the given video id. -/
def searchItem (vid : String) : Json :=
  .obj (.cons "id" (.obj (.cons "videoId" (.str vid) .nil))
    (.cons "snippet" (.obj (.cons "title" (.str "T")
      (.cons "channelTitle" (.str "C")
        (.cons "publishedAt" (.str "2022-05-01T00:00:00Z") .nil)))) .nil))

/-- The aware UTC lower bound of the shipped configuration, 2022-01-01
00:00:00+00:00. -/
def startInstant : Int := utcInstant 2022 1 1 0 0 0

/-- The aware UTC upper bound of the shipped configuration, 2025-12-08
23:59:59+00:00. -/
def endInstant : Int := utcInstant 2025 12 8 23 59 59

/-- Compact YYYYMMDDHHMMSS rendering of civil fields, digit by digit;
input-side description used to quantify over well-formed compact strings in
the normalizer claims. -/
def toCompact (y mo d h mi s : Nat) : String :=
  String.mk [Nat.digitChar (y / 1000 % 10), Nat.digitChar (y / 100 % 10),
    Nat.digitChar (y / 10 % 10), Nat.digitChar (y % 10),
    Nat.digitChar (mo / 10), Nat.digitChar (mo % 10),
    Nat.digitChar (d / 10), Nat.digitChar (d % 10),
    Nat.digitChar (h / 10), Nat.digitChar (h % 10),
    Nat.digitChar (mi / 10), Nat.digitChar (mi % 10),
    Nat.digitChar (s / 10), Nat.digitChar (s % 10)]


/-- A comment thread item whose nested snippet dict is empty: every
`.get`-guarded field falls to its default. -/
def itemEmptyCommentSnippet : Json :=
  .obj (.cons "snippet"
    (.obj (.cons "topLevelComment" (.obj (.cons "snippet" (.obj .nil) .nil)) .nil)) .nil)

/-- A comment thread item with a valid in-range timestamp but no likeCount
field, exercising the `.get("likeCount", 0)` default. -/
def itemNoLikes : Json :=
  .obj (.cons "snippet"
    (.obj (.cons "topLevelComment" (.obj (.cons "snippet"
      (.obj (.cons "publishedAt" (.str "2023-06-15T12:00:00+00:00") .nil)) .nil)) .nil))
    (.cons "id" (.str "c1") .nil))

/-- A comment thread item with a valid in-range timestamp but no top-level
id key, exercising the raw subscript `item["id"]`. -/
def itemNoId : Json :=
  .obj (.cons "snippet"
    (.obj (.cons "topLevelComment" (.obj (.cons "snippet"
      (commentSnippet "2023-06-15T12:00:00+00:00" (.num 3)) .nil)) .nil)) .nil)


/-- Total number of items across a list of scripted pages. -/
def itemCount (ps : List Page) : Nat :=
  (ps.map (fun p => p.items.length)).sum

/-- The accumulated count stays strictly below the cap after each page of
the script; the scenario condition under which no page loop stops early. -/
def strictBelowCap : List Page → Nat → Nat → Bool
  | [], _, _ => true
  | p :: rest, fetched, maxN =>
    decide (fetched + p.items.length < maxN) &&
      strictBelowCap rest (fetched + p.items.length) maxN

/-! # Theorems

Helper lemmas come first, then one theorem per claim (with its witness or
counterexample where required).
-/

/-! ## Lemmas about deduplication -/


theorem memB_iff {κ : Type} [DecidableEq κ] (k : κ) (l : List κ) :
    memB k l = true ↔ k ∈ l := by
  induction l with
  | nil => simp [memB]
  | cons x rest ih =>
    by_cases h : x = k
    · simp [memB, h]
    · simp [memB, h, ih]
      intro hk
      exact absurd hk.symm h

theorem memB_eq_false {κ : Type} [DecidableEq κ] {k : κ} {l : List κ} :
    memB k l = false ↔ ¬ k ∈ l := by
  rw [← memB_iff k l]
  cases memB k l <;> simp

theorem dedupFirstAux_mem {α κ : Type} [DecidableEq κ] (key : α → κ) :
    ∀ (seen : List κ) (xs : List α) (x : α), x ∈ dedupFirstAux key seen xs → x ∈ xs := by
  intro seen xs
  induction xs generalizing seen with
  | nil => intro x h; simp [dedupFirstAux] at h
  | cons a rest ih =>
    intro x h
    cases hm : memB (key a) seen with
    | true =>
      rw [dedupFirstAux, hm] at h
      simp only [if_true] at h
      exact List.mem_cons_of_mem _ (ih _ _ h)
    | false =>
      rw [dedupFirstAux, hm] at h
      simp only [Bool.false_eq_true, if_false, List.mem_cons] at h
      rcases h with h | h
      · simp [h]
      · exact List.mem_cons_of_mem _ (ih _ _ h)

theorem dedupFirstAux_keys {α κ : Type} [DecidableEq κ] (key : α → κ) :
    ∀ (seen : List κ) (xs : List α),
      ((dedupFirstAux key seen xs).map key).Nodup ∧
        ∀ k ∈ (dedupFirstAux key seen xs).map key, ¬ k ∈ seen := by
  intro seen xs
  induction xs generalizing seen with
  | nil => simp [dedupFirstAux]
  | cons a rest ih =>
    cases hm : memB (key a) seen with
    | true =>
      rw [dedupFirstAux, hm]
      simpa only [if_true] using ih seen
    | false =>
      rw [dedupFirstAux, hm]
      simp only [Bool.false_eq_true, if_false, List.map_cons, List.nodup_cons, List.mem_cons]
      have h1 := (ih (key a :: seen)).1
      have h2 := (ih (key a :: seen)).2
      refine ⟨⟨fun hmem => ?_, h1⟩, ?_⟩
      · exact (h2 _ hmem) (List.mem_cons_self _ _)
      · intro k hk
        rcases hk with hk | hk
        · subst hk
          exact fun hk2 => (memB_eq_false.mp hm) hk2
        · exact fun hk2 => (h2 _ hk) (List.mem_cons_of_mem _ hk2)

theorem dedupFirstAux_find {α κ : Type} [DecidableEq κ] (key : α → κ) :
    ∀ (seen : List κ) (xs : List α) (k : κ), ¬ k ∈ seen →
      (dedupFirstAux key seen xs).find? (fun a => decide (key a = k)) =
        xs.find? (fun a => decide (key a = k)) := by
  intro seen xs
  induction xs generalizing seen with
  | nil => intro k _; simp [dedupFirstAux]
  | cons a rest ih =>
    intro k hk
    cases hm : memB (key a) seen with
    | true =>
      have hne : ¬ key a = k := by
        intro h
        exact hk (h ▸ (memB_iff _ _).mp hm)
      rw [dedupFirstAux, hm]
      simp only [if_true]
      rw [ih seen k hk, List.find?_cons_of_neg]
      simpa using hne
    | false =>
      rw [dedupFirstAux, hm]
      simp only [Bool.false_eq_true, if_false]
      by_cases hak : key a = k
      · rw [List.find?_cons_of_pos _ (by simpa using hak),
          List.find?_cons_of_pos _ (by simpa using hak)]
      · rw [List.find?_cons_of_neg _ (by simpa using hak),
          List.find?_cons_of_neg _ (by simpa using hak)]
        refine ih _ k ?_
        intro hmem
        rcases List.mem_cons.mp hmem with h | h
        · exact hak h.symm
        · exact hk h

theorem dedupFirstAux_of_nodup {α κ : Type} [DecidableEq κ] (key : α → κ) :
    ∀ (seen : List κ) (xs : List α), (xs.map key).Nodup →
      (∀ k ∈ xs.map key, ¬ k ∈ seen) → dedupFirstAux key seen xs = xs := by
  intro seen xs
  induction xs generalizing seen with
  | nil => intro _ _; simp [dedupFirstAux]
  | cons a rest ih =>
    intro hnd hdisj
    have hm : memB (key a) seen = false := by
      refine memB_eq_false.mpr ?_
      exact hdisj (key a) (by simp)
    rw [dedupFirstAux, hm]
    simp only [Bool.false_eq_true, if_false]
    congr 1
    have hnd2 : (rest.map key).Nodup := (List.nodup_cons.mp (by simpa using hnd)).2
    refine ih (key a :: seen) hnd2 ?_
    intro k hk hmem
    rcases List.mem_cons.mp hmem with h | h
    · subst h
      exact (List.nodup_cons.mp (by simpa using hnd)).1 hk
    · exact hdisj k (List.mem_cons_of_mem _ hk) h

theorem drop_duplicates_keys_nodup {α κ : Type} [DecidableEq κ] (key : α → κ) (xs : List α) :
    ((drop_duplicates key xs).map key).Nodup :=
  (dedupFirstAux_keys key [] xs).1

theorem drop_duplicates_mem {α κ : Type} [DecidableEq κ] (key : α → κ) (xs : List α) (x : α) :
    x ∈ drop_duplicates key xs → x ∈ xs :=
  dedupFirstAux_mem key [] xs x

theorem drop_duplicates_find {α κ : Type} [DecidableEq κ] (key : α → κ) (xs : List α) (k : κ) :
    (drop_duplicates key xs).find? (fun a => decide (key a = k)) =
      xs.find? (fun a => decide (key a = k)) :=
  dedupFirstAux_find key [] xs k (by simp)

theorem drop_duplicates_of_nodup {α κ : Type} [DecidableEq κ] (key : α → κ) (xs : List α)
    (h : (xs.map key).Nodup) : drop_duplicates key xs = xs :=
  dedupFirstAux_of_nodup key [] xs h (by simp)

theorem drop_duplicates_idem {α κ : Type} [DecidableEq κ] (key : α → κ) (xs : List α) :
    drop_duplicates key (drop_duplicates key xs) = drop_duplicates key xs :=
  drop_duplicates_of_nodup key _ (drop_duplicates_keys_nodup key xs)

theorem insertLast_fst_of_mem {κ α : Type} [DecidableEq κ] (k : κ) (v : α) :
    ∀ acc : List (κ × α), memB k (acc.map Prod.fst) = true →
      (insertLast k v acc).map Prod.fst = acc.map Prod.fst := by
  intro acc
  induction acc with
  | nil => intro h; simp [memB] at h
  | cons p rest ih =>
    intro h
    by_cases hk : p.1 = k
    · cases p
      simp_all [insertLast]
    · cases p with
    | mk k0 v0 =>
      simp only [List.map_cons, memB] at h
      simp only at hk
      rw [if_neg hk] at h
      simp [insertLast, hk, ih h]

theorem insertLast_of_not_mem {κ α : Type} [DecidableEq κ] (k : κ) (v : α) :
    ∀ acc : List (κ × α), memB k (acc.map Prod.fst) = false →
      insertLast k v acc = acc ++ [(k, v)] := by
  intro acc
  induction acc with
  | nil => intro _; simp [insertLast]
  | cons p rest ih =>
    intro h
    cases p with
    | mk k0 v0 =>
      simp only [List.map_cons, memB] at h
      by_cases hk : k0 = k
      · rw [if_pos hk] at h
        exact absurd h (by simp)
      · rw [if_neg hk] at h
        simp [insertLast, hk, ih h]

theorem insertLast_find_self {κ α : Type} [DecidableEq κ] (k : κ) (v : α) :
    ∀ acc : List (κ × α),
      (insertLast k v acc).find? (fun p => decide (p.1 = k)) = some (k, v) := by
  intro acc
  induction acc with
  | nil => simp [insertLast]
  | cons p rest ih =>
    cases p with
    | mk k0 v0 =>
      by_cases hk : k0 = k
      · subst hk
        simp [insertLast]
      · simp [insertLast, hk, ih]

theorem insertLast_find_other {κ α : Type} [DecidableEq κ] (k k1 : κ) (v : α)
    (hne : ¬ k1 = k) :
    ∀ acc : List (κ × α),
      (insertLast k v acc).find? (fun p => decide (p.1 = k1)) =
        acc.find? (fun p => decide (p.1 = k1)) := by
  intro acc
  induction acc with
  | nil =>
    simp only [insertLast, List.find?]
    have : ¬ k = k1 := fun h => hne h.symm
    simp [this]
  | cons p rest ih =>
    cases p with
    | mk k0 v0 =>
      by_cases hk : k0 = k
      · subst hk
        have : ¬ k0 = k1 := fun h => hne h.symm
        simp [insertLast, this]
      · by_cases hk1 : k0 = k1
        · subst hk1
          simp [insertLast, hk]
        · simp [insertLast, hk, hk1, ih]

theorem insertLast_inv {κ α : Type} [DecidableEq κ] (key : α → κ) (k : κ) (v : α)
    (hkv : key v = k) :
    ∀ acc : List (κ × α), (∀ p ∈ acc, key p.2 = p.1) →
      ∀ p ∈ insertLast k v acc, key p.2 = p.1 := by
  intro acc
  induction acc with
  | nil =>
    intro _ p hp
    simp only [insertLast, List.mem_singleton] at hp
    subst hp
    exact hkv
  | cons q rest ih =>
    intro hinv p hp
    cases q with
    | mk k0 v0 =>
      by_cases hk : k0 = k
      · simp only [insertLast, if_pos hk] at hp
        rcases List.mem_cons.mp hp with h | h
        · subst h; simpa [hk] using hkv
        · exact hinv p (List.mem_cons_of_mem _ h)
      · simp only [insertLast, if_neg hk] at hp
        rcases List.mem_cons.mp hp with h | h
        · subst h; exact hinv (k0, v0) (by simp)
        · exact ih (fun q hq => hinv q (List.mem_cons_of_mem _ hq)) p h

theorem insertLast_keys_nodup {κ α : Type} [DecidableEq κ] (k : κ) (v : α) :
    ∀ acc : List (κ × α), ((acc.map Prod.fst).Nodup) →
      ((insertLast k v acc).map Prod.fst).Nodup := by
  intro acc hnd
  cases hm : memB k (acc.map Prod.fst) with
  | true => rw [insertLast_fst_of_mem k v acc hm]; exact hnd
  | false =>
    rw [insertLast_of_not_mem k v acc hm]
    rw [List.map_append]
    rw [List.nodup_append]
    refine ⟨hnd, by simp, ?_⟩
    intro x hx hx2
    simp only [List.map_cons, List.map_nil, List.mem_singleton] at hx2
    subst hx2
    exact (memB_eq_false.mp hm) hx

theorem insertLast_mem {κ α : Type} [DecidableEq κ] (k : κ) (v : α) :
    ∀ (acc : List (κ × α)) (q : κ × α), q ∈ insertLast k v acc →
      q = (k, v) ∨ q ∈ acc := by
  intro acc
  induction acc with
  | nil => intro q hq; simp only [insertLast, List.mem_singleton] at hq; exact Or.inl hq
  | cons p rest ih =>
    intro q hq
    cases p with
    | mk k0 v0 =>
      by_cases hk : k0 = k
      · simp only [insertLast, if_pos hk] at hq
        rcases List.mem_cons.mp hq with h | h
        · subst h; subst hk; exact Or.inl rfl
        · exact Or.inr (List.mem_cons_of_mem _ h)
      · simp only [insertLast, if_neg hk] at hq
        rcases List.mem_cons.mp hq with h | h
        · subst h; exact Or.inr (by simp)
        · rcases ih q h with h2 | h2
          · exact Or.inl h2
          · exact Or.inr (List.mem_cons_of_mem _ h2)

theorem foldl_insert_find {α κ : Type} [DecidableEq κ] (key : α → κ) :
    ∀ (xs : List α) (acc : List (κ × α)) (k : κ),
      (xs.foldl (fun acc a => insertLast (key a) a acc) acc).find? (fun p => decide (p.1 = k)) =
        ((xs.reverse.find? (fun a => decide (key a = k))).map (fun a => (k, a))).or
          (acc.find? (fun p => decide (p.1 = k))) := by
  intro xs
  induction xs with
  | nil => intro acc k; simp
  | cons a rest ih =>
    intro acc k
    rw [List.foldl_cons, ih, List.reverse_cons, List.find?_append]
    cases h : rest.reverse.find? (fun a => decide (key a = k)) with
    | some b => simp [Option.or]
    | none =>
      by_cases hak : key a = k
      · subst hak
        simp [Option.or, insertLast_find_self]
      · have h1 : (List.find? (fun x => decide (key x = k)) [a]) = none := by
          simp [List.find?, hak]
        rw [h1]
        simp only [Option.map_none, Option.or]
        exact insertLast_find_other (key a) k a (fun h2 => hak h2.symm) acc

theorem foldl_insert_inv {α κ : Type} [DecidableEq κ] (key : α → κ) :
    ∀ (xs : List α) (acc : List (κ × α)), (∀ p ∈ acc, key p.2 = p.1) →
      ∀ p ∈ xs.foldl (fun acc a => insertLast (key a) a acc) acc, key p.2 = p.1 := by
  intro xs
  induction xs with
  | nil => intro acc h; simpa using h
  | cons a rest ih =>
    intro acc h
    rw [List.foldl_cons]
    exact ih _ (insertLast_inv key (key a) a rfl acc h)

theorem foldl_insert_keys_nodup {α κ : Type} [DecidableEq κ] (key : α → κ) :
    ∀ (xs : List α) (acc : List (κ × α)), ((acc.map Prod.fst).Nodup) →
      (((xs.foldl (fun acc a => insertLast (key a) a acc) acc).map Prod.fst).Nodup) := by
  intro xs
  induction xs with
  | nil => intro acc h; simpa using h
  | cons a rest ih =>
    intro acc h
    rw [List.foldl_cons]
    exact ih _ (insertLast_keys_nodup (key a) a acc h)

theorem foldl_insert_mem {α κ : Type} [DecidableEq κ] (key : α → κ) :
    ∀ (xs : List α) (acc : List (κ × α)) (p : κ × α),
      p ∈ xs.foldl (fun acc a => insertLast (key a) a acc) acc →
        p.2 ∈ xs ∨ p ∈ acc := by
  intro xs
  induction xs with
  | nil => intro acc p h; exact Or.inr (by simpa using h)
  | cons a rest ih =>
    intro acc p h
    rw [List.foldl_cons] at h
    rcases ih _ p h with h2 | h2
    · exact Or.inl (List.mem_cons_of_mem _ h2)
    · rcases insertLast_mem (key a) a acc p h2 with h3 | h3
      · subst h3; exact Or.inl (by simp)
      · exact Or.inr h3

theorem foldl_insert_of_disjoint {α κ : Type} [DecidableEq κ] (key : α → κ) :
    ∀ (xs : List α) (acc : List (κ × α)), (xs.map key).Nodup →
      (∀ x ∈ xs, memB (key x) (acc.map Prod.fst) = false) →
      (xs.foldl (fun acc a => insertLast (key a) a acc) acc).map Prod.snd =
        acc.map Prod.snd ++ xs := by
  intro xs
  induction xs with
  | nil => intro acc _ _; simp
  | cons a rest ih =>
    intro acc hnd hdisj
    rw [List.foldl_cons, insertLast_of_not_mem (key a) a acc (hdisj a (by simp))]
    have hnd2 : (rest.map key).Nodup := (List.nodup_cons.mp (by simpa using hnd)).2
    have hha : ¬ key a ∈ rest.map key := (List.nodup_cons.mp (by simpa using hnd)).1
    rw [ih _ hnd2 ?_]
    · simp
    · intro x hx
      refine memB_eq_false.mpr ?_
      intro hmem
      rw [List.map_append] at hmem
      rcases List.mem_append.mp hmem with h | h
      · exact (memB_eq_false.mp (hdisj x (List.mem_cons_of_mem _ hx))) h
      · simp only [List.map_cons, List.map_nil, List.mem_singleton] at h
        exact hha (h ▸ List.mem_map_of_mem key hx)

theorem assoc_find_snd {α κ : Type} [DecidableEq κ] (key : α → κ) :
    ∀ (l : List (κ × α)), (∀ p ∈ l, key p.2 = p.1) → ∀ k : κ,
      (l.map Prod.snd).find? (fun a => decide (key a = k)) =
        (l.find? (fun p => decide (p.1 = k))).map Prod.snd := by
  intro l
  induction l with
  | nil => intro _ k; simp
  | cons p rest ih =>
    intro hinv k
    have hp : key p.2 = p.1 := hinv p (by simp)
    by_cases hk : p.1 = k
    · rw [List.map_cons, List.find?_cons_of_pos _ (by simp [hp, hk]),
        List.find?_cons_of_pos _ (by simpa using hk)]
      simp
    · rw [List.map_cons, List.find?_cons_of_neg _ (by simp [hp, hk]),
        List.find?_cons_of_neg _ (by simpa using hk)]
      exact ih (fun q hq => hinv q (List.mem_cons_of_mem _ hq)) k

theorem dedupLast_find {α κ : Type} [DecidableEq κ] (key : α → κ) (xs : List α) (k : κ) :
    (dedupLast key xs).find? (fun a => decide (key a = k)) =
      xs.reverse.find? (fun a => decide (key a = k)) := by
  unfold dedupLast dictOfList
  rw [assoc_find_snd key _ (foldl_insert_inv key xs [] (by simp)) k, foldl_insert_find key xs [] k]
  cases h : xs.reverse.find? (fun a => decide (key a = k)) <;> simp [Option.or]

theorem dedupLast_keys_nodup {α κ : Type} [DecidableEq κ] (key : α → κ) (xs : List α) :
    ((dedupLast key xs).map key).Nodup := by
  unfold dedupLast dictOfList
  rw [List.map_map]
  have hinv := foldl_insert_inv key xs [] (by simp)
  have : (xs.foldl (fun acc a => insertLast (key a) a acc) []).map (key ∘ Prod.snd) =
      (xs.foldl (fun acc a => insertLast (key a) a acc) []).map Prod.fst := by
    refine List.map_congr_left ?_
    intro p hp
    exact hinv p hp
  rw [this]
  exact foldl_insert_keys_nodup key xs [] (by simp)

theorem dedupLast_mem {α κ : Type} [DecidableEq κ] (key : α → κ) (xs : List α) (v : α) :
    v ∈ dedupLast key xs → v ∈ xs := by
  intro h
  unfold dedupLast dictOfList at h
  rcases List.mem_map.mp h with ⟨p, hp, hpv⟩
  rcases foldl_insert_mem key xs [] p hp with h2 | h2
  · exact hpv ▸ h2
  · simp at h2

theorem dedupLast_of_nodup {α κ : Type} [DecidableEq κ] (key : α → κ) (xs : List α)
    (h : (xs.map key).Nodup) : dedupLast key xs = xs := by
  unfold dedupLast dictOfList
  rw [foldl_insert_of_disjoint key xs [] h (by intro x _; simp [memB])]
  simp

theorem dedupLast_idem {α κ : Type} [DecidableEq κ] (key : α → κ) (xs : List α) :
    dedupLast key (dedupLast key xs) = dedupLast key xs :=
  dedupLast_of_nodup key _ (dedupLast_keys_nodup key xs)

/-! ## Claim C2: article deduplication -/

/-- Claim C2, counterexample to the claim as stated.  The claim says that on
a key collision the later-seen record wins; the pandas deduplication keeps
the first row of each (url, keyword) key, so with two distinct records
sharing the key, the retained record is the earlier one, not the later. -/
theorem C2_last_write_wins_false :
    dedupArticleRows [articleRowOf "a" "x" "t1", articleRowOf "a" "x" "t2"] =
      [articleRowOf "a" "x" "t1"] ∧
    articleRowOf "a" "x" "t1" ≠ articleRowOf "a" "x" "t2" := by
  decide

/-- Claim C2 (amended): the article deduplication returns at most one record
per (url, keyword) key, the EARLIER-seen record for a key winning (pandas
drop_duplicates keeps the first); the same url under a different keyword is
kept separately, and the three-record example of the claim deduplicates to
exactly 2 records. -/
theorem C2_article_dedup (rows : List ArticleRow) :
    ((dedupArticleRows rows).map articleKey).Nodup ∧
    (∀ r ∈ dedupArticleRows rows, r ∈ rows) ∧
    (∀ k : Json × String,
      (dedupArticleRows rows).find? (fun r => decide (articleKey r = k)) =
        rows.find? (fun r => decide (articleKey r = k))) ∧
    dedupArticleRows
        [articleRowOf "a" "x" "t1", articleRowOf "a" "x" "t2", articleRowOf "a" "y" "t3"] =
      [articleRowOf "a" "x" "t1", articleRowOf "a" "y" "t3"] := by
  refine ⟨drop_duplicates_keys_nodup articleKey rows,
    fun r => drop_duplicates_mem articleKey rows r,
    fun k => drop_duplicates_find articleKey rows k, by decide⟩

/-- Claim C2 witness: the find-characterization of the amended theorem,
evaluated on the concrete three-record example for the colliding key. -/
theorem C2_article_dedup_witness :
    (dedupArticleRows
        [articleRowOf "a" "x" "t1", articleRowOf "a" "x" "t2", articleRowOf "a" "y" "t3"]).find?
        (fun r => decide (articleKey r = (Json.str "a", "x"))) =
      [articleRowOf "a" "x" "t1", articleRowOf "a" "x" "t2", articleRowOf "a" "y" "t3"].find?
        (fun r => decide (articleKey r = (Json.str "a", "x"))) :=
  (C2_article_dedup
    [articleRowOf "a" "x" "t1", articleRowOf "a" "x" "t2", articleRowOf "a" "y" "t3"]).2.2.1
    (Json.str "a", "x")

/-! ## Claim C6: video deduplication keyed on the video id alone -/

/-- Claim C6: the video deduplication applied before comment fetching keys on
video_id alone: every id appears at most once, each retained record occurs in
the input, on multiple discoveries the record of the LAST discovery is
retained (with only its keyword), and concretely the same id discovered
under keywords kw1 then kw2 is kept once, with keyword kw2. -/
theorem C6_video_dedup (vs : List VideoRec) :
    ((dedupVideos vs).map (fun v => v.video_id)).Nodup ∧
    (∀ v ∈ dedupVideos vs, v ∈ vs) ∧
    (∀ k : Json, (dedupVideos vs).find? (fun v => decide (v.video_id = k)) =
      vs.reverse.find? (fun v => decide (v.video_id = k))) ∧
    dedupVideos [videoOf "a" "kw1", videoOf "a" "kw2"] = [videoOf "a" "kw2"] := by
  refine ⟨dedupLast_keys_nodup (fun v : VideoRec => v.video_id) vs,
    fun v => dedupLast_mem (fun v : VideoRec => v.video_id) vs v,
    fun k => dedupLast_find (fun v : VideoRec => v.video_id) vs k, by decide⟩

/-- Claim C6 witness: the last-discovery characterization evaluated on two
same-id records; the retained record is the later one. -/
theorem C6_video_dedup_witness :
    (dedupVideos [videoOf "a" "kw1", videoOf "a" "kw2"]).find?
        (fun v => decide (v.video_id = Json.str "a")) =
      [videoOf "a" "kw1", videoOf "a" "kw2"].reverse.find?
        (fun v => decide (v.video_id = Json.str "a")) :=
  (C6_video_dedup [videoOf "a" "kw1", videoOf "a" "kw2"]).2.2.1 (Json.str "a")

/-! ## Claim C9: idempotence of both deduplications -/

/-- Claim C9: deduplication is idempotent for both pipelines: applying the
article dedup (by url and keyword) or the video dedup (by video id) twice
equals applying it once, and applying either to a sequence whose keys are
already duplicate-free returns it unchanged. -/
theorem C9_dedup_idem (rows : List ArticleRow) (vs : List VideoRec) :
    dedupArticleRows (dedupArticleRows rows) = dedupArticleRows rows ∧
    dedupVideos (dedupVideos vs) = dedupVideos vs ∧
    ((rows.map articleKey).Nodup → dedupArticleRows rows = rows) ∧
    ((vs.map (fun v => v.video_id)).Nodup → dedupVideos vs = vs) := by
  refine ⟨drop_duplicates_idem articleKey rows, dedupLast_idem (fun v : VideoRec => v.video_id) vs,
    fun h => drop_duplicates_of_nodup articleKey rows h,
    fun h => dedupLast_of_nodup (fun v : VideoRec => v.video_id) vs h⟩

/-- Claim C9 witness: idempotence and the unchanged-when-already-deduped
property evaluated on concrete two-element lists with distinct keys. -/
theorem C9_dedup_idem_witness :
    ([articleRowOf "a" "x" "t1", articleRowOf "b" "x" "t2"].map articleKey).Nodup ∧
    dedupArticleRows [articleRowOf "a" "x" "t1", articleRowOf "b" "x" "t2"] =
      [articleRowOf "a" "x" "t1", articleRowOf "b" "x" "t2"] ∧
    dedupVideos (dedupVideos [videoOf "a" "kw1", videoOf "a" "kw2"]) =
      dedupVideos [videoOf "a" "kw1", videoOf "a" "kw2"] :=
  ⟨by decide,
    (C9_dedup_idem [articleRowOf "a" "x" "t1", articleRowOf "b" "x" "t2"] []).2.2.1 (by decide),
    (C9_dedup_idem [] [videoOf "a" "kw1", videoOf "a" "kw2"]).2.1⟩

/-! ## Lemmas about the TimeWindower -/

theorem leB_start_iff (y m ey em ed : Nat) (hm1 : 1 ≤ m) (hm2 : m ≤ 12)
    (hem2 : em ≤ 12) (hed : 1 ≤ ed) :
    (DT.leB ⟨y, m, 1, 0, 0, 0⟩ ⟨ey, em, ed, 0, 0, 0⟩ = true) ↔
      y * 12 + m ≤ ey * 12 + em := by
  simp only [DT.leB]
  split_ifs <;> simp_all [decide_eq_true_iff] <;> omega

theorem ltB_last_iff (ey em ed y m d2 : Nat) :
    (DT.ltB ⟨ey, em, ed, 23, 59, 59⟩ ⟨y, m, d2, 23, 59, 59⟩ = true) ↔
      (ey < y ∨ (ey = y ∧ (em < m ∨ (em = m ∧ ed < d2)))) := by
  simp only [DT.ltB]
  split_ifs <;> simp_all [decide_eq_true_iff]

theorem monthFirstDT_eq (y m : Nat) (hm1 : 1 ≤ m) (hm2 : m ≤ 12) :
    monthFirstDT (y * 12 + (m - 1)) = ⟨y, m, 1, 0, 0, 0⟩ := by
  have h1 : (y * 12 + (m - 1)) / 12 = y := by omega
  have h2 : (y * 12 + (m - 1)) % 12 + 1 = m := by omega
  rw [monthFirstDT, h1, h2]

theorem monthLastDT_eq (y m : Nat) (hm1 : 1 ≤ m) (hm2 : m ≤ 12) :
    monthLastDT (y * 12 + (m - 1)) = ⟨y, m, daysInMonth y m, 23, 59, 59⟩ := by
  have h1 : (y * 12 + (m - 1)) / 12 = y := by omega
  have h2 : (y * 12 + (m - 1)) % 12 + 1 = m := by omega
  rw [monthLastDT, h1, h2]

theorem subOneSec_nextMonth (y m : Nat) (hm1 : 1 ≤ m) (hm2 : m ≤ 12) :
    dtSubOneSec (nextMonth ⟨y, m, 1, 0, 0, 0⟩) = ⟨y, m, daysInMonth y m, 23, 59, 59⟩ := by
  by_cases hm12 : m = 12
  · subst hm12
    simp [nextMonth, dtSubOneSec, daysInMonth]
  · have hne : ¬ (m = 12) := hm12
    have hgt : m + 1 > 1 := by omega
    simp [nextMonth, dtSubOneSec, hne, hgt]

theorem subOneSec_monthFirst (idx : Nat) :
    dtSubOneSec (monthFirstDT (idx + 1)) = monthLastDT idx := by
  by_cases h : (idx + 1) % 12 = 0
  · have h1 : idx % 12 = 11 := by omega
    have h2 : (idx + 1) / 12 - 1 = idx / 12 := by omega
    rw [monthFirstDT, monthLastDT]
    simp [dtSubOneSec, h, h1, h2, daysInMonth]
  · have hgt : (idx + 1) % 12 + 1 > 1 := by omega
    have e1 : (idx + 1) / 12 = idx / 12 := by omega
    have e2 : (idx + 1) % 12 = idx % 12 + 1 := by omega
    rw [monthFirstDT, monthLastDT]
    simp [dtSubOneSec, e1, e2, hgt]

theorem mkChunks_length : ∀ (n idx : Nat) (e : DT), (mkChunks n idx e).length = n := by
  intro n
  induction n with
  | zero => intro idx e; rfl
  | succ n ih => intro idx e; simp [mkChunks, ih]

theorem mkChunks_get? : ∀ (n idx : Nat) (e : DT) (i : Nat), i < n →
    (mkChunks n idx e).get? i =
      some ⟨monthFirstDT (idx + i),
        if i + 1 = n then clampEnd e else monthLastDT (idx + i)⟩ := by
  intro n
  induction n with
  | zero => intro idx e i h; omega
  | succ n ih =>
    intro idx e i h
    cases i with
    | zero =>
      simp only [mkChunks, List.get?, Nat.add_zero]
      by_cases hn : n = 0
      · have h4 : 0 + 1 = n + 1 := by omega
        simp [hn, h4]
      · have h4 : ¬ (0 + 1 = n + 1) := by omega
        simp [hn, h4]
    | succ i =>
      have hi : i < n := by omega
      simp only [mkChunks, List.get?]
      rw [ih (idx + 1) e i hi]
      have e1 : idx + 1 + i = idx + (i + 1) := by omega
      rw [e1]
      by_cases h3 : i + 1 = n
      · have h4 : i + 1 + 1 = n + 1 := by omega
        simp [h3, h4]
      · have h4 : ¬ (i + 1 + 1 = n + 1) := by omega
        simp [h3, h4]

theorem genLoop_eq_mkChunks (ey em ed : Nat) (hem1 : 1 ≤ em) (hem2 : em ≤ 12)
    (hed1 : 1 ≤ ed) (hed2 : ed ≤ daysInMonth ey em) :
    ∀ (fuel y m : Nat), 1 ≤ m → m ≤ 12 →
      ey * 12 + em + 1 - (y * 12 + m) ≤ fuel →
      genLoop fuel ⟨y, m, 1, 0, 0, 0⟩ ⟨ey, em, ed, 0, 0, 0⟩ =
        mkChunks (ey * 12 + em + 1 - (y * 12 + m)) (y * 12 + (m - 1))
          ⟨ey, em, ed, 0, 0, 0⟩ := by
  intro fuel
  induction fuel with
  | zero =>
    intro y m hm1 hm2 hfuel
    have h0 : ey * 12 + em + 1 - (y * 12 + m) = 0 := by omega
    rw [h0]
    rfl
  | succ fuel ih =>
    intro y m hm1 hm2 hfuel
    by_cases hle : y * 12 + m ≤ ey * 12 + em
    · have hcond : DT.leB ⟨y, m, 1, 0, 0, 0⟩ ⟨ey, em, ed, 0, 0, 0⟩ = true :=
        (leB_start_iff y m ey em ed hm1 hm2 hem2 hed1).mpr hle
      have hc : ey * 12 + em + 1 - (y * 12 + m) = (ey * 12 + em - (y * 12 + m)) + 1 := by
        omega
      have hstop : dtMin (dtSubOneSec (nextMonth ⟨y, m, 1, 0, 0, 0⟩)) (clampEnd ⟨ey, em, ed, 0, 0, 0⟩) =
          (if ey * 12 + em - (y * 12 + m) = 0 then clampEnd ⟨ey, em, ed, 0, 0, 0⟩
            else monthLastDT (y * 12 + (m - 1))) := by
        rw [subOneSec_nextMonth y m hm1 hm2]
        by_cases hc0 : ey * 12 + em - (y * 12 + m) = 0
        · have hy : y = ey := by omega
          have hmm : m = em := by omega
          subst hy
          subst hmm
          rw [if_pos hc0]
          unfold dtMin clampEnd
          by_cases hlt : DT.ltB ⟨y, m, ed, 23, 59, 59⟩ ⟨y, m, daysInMonth y m, 23, 59, 59⟩ = true
          · rw [if_pos hlt]
          · rw [if_neg hlt]
            rw [ltB_last_iff] at hlt
            have hdim : ed = daysInMonth y m := by omega
            rw [hdim]
        · rw [if_neg hc0]
          have hlt2 : ¬ DT.ltB ⟨ey, em, ed, 23, 59, 59⟩ ⟨y, m, daysInMonth y m, 23, 59, 59⟩ = true := by
            rw [ltB_last_iff]
            omega
          unfold dtMin clampEnd
          rw [if_neg hlt2]
          exact (monthLastDT_eq y m hm1 hm2).symm
      have htail : genLoop fuel (nextMonth ⟨y, m, 1, 0, 0, 0⟩) ⟨ey, em, ed, 0, 0, 0⟩ =
          mkChunks (ey * 12 + em - (y * 12 + m)) (y * 12 + (m - 1) + 1) ⟨ey, em, ed, 0, 0, 0⟩ := by
        by_cases hm12 : m = 12
        · subst hm12
          have hnm : nextMonth ⟨y, 12, 1, 0, 0, 0⟩ = ⟨y + 1, 1, 1, 0, 0, 0⟩ := by
            simp [nextMonth]
          rw [hnm, ih (y + 1) 1 (by omega) (by omega) (by omega)]
          have e1 : ey * 12 + em + 1 - ((y + 1) * 12 + 1) = ey * 12 + em - (y * 12 + 12) := by
            omega
          have e2 : (y + 1) * 12 + (1 - 1) = y * 12 + (12 - 1) + 1 := by omega
          rw [e1, e2]
        · have hnm : nextMonth ⟨y, m, 1, 0, 0, 0⟩ = ⟨y, m + 1, 1, 0, 0, 0⟩ := by
            simp [nextMonth, hm12]
          rw [hnm, ih y (m + 1) (by omega) (by omega) (by omega)]
          have e1 : ey * 12 + em + 1 - (y * 12 + (m + 1)) = ey * 12 + em - (y * 12 + m) := by
            omega
          have e2 : y * 12 + (m + 1 - 1) = y * 12 + (m - 1) + 1 := by omega
          rw [e1, e2]
      rw [hc, mkChunks, genLoop, if_pos hcond, hstop, htail, monthFirstDT_eq y m hm1 hm2]
    · have hcond : ¬ DT.leB ⟨y, m, 1, 0, 0, 0⟩ ⟨ey, em, ed, 0, 0, 0⟩ = true := by
        rw [leB_start_iff y m ey em ed hm1 hm2 hem2 hed1]
        omega
      have h0 : ey * 12 + em + 1 - (y * 12 + m) = 0 := by omega
      rw [h0, genLoop, if_neg hcond]
      rfl

theorem ltB_monthFirst (idx : Nat) :
    DT.ltB (monthFirstDT idx) (monthFirstDT (idx + 1)) = true := by
  simp only [monthFirstDT, DT.ltB]
  split_ifs <;> simp_all [decide_eq_true_iff] <;> omega

theorem generate_eq_mkChunks (s e : PyDate) (hs1 : 1 ≤ s.month) (hs2 : s.month ≤ 12)
    (he : e.valid) :
    generate_monthly_ranges s e =
      mkChunks (e.monthIdx + 1 - s.monthIdx) s.monthIdx ⟨e.year, e.month, e.day, 0, 0, 0⟩ := by
  obtain ⟨hy1, hy2, hm1, hm2, hd1, hd2⟩ := he
  unfold generate_monthly_ranges
  rw [genLoop_eq_mkChunks e.year e.month e.day hm1 hm2 hd1 hd2 _ s.year s.month hs1 hs2
    (by omega)]
  have hcount : e.year * 12 + e.month + 1 - (s.year * 12 + s.month) =
      e.monthIdx + 1 - s.monthIdx := by
    simp only [PyDate.monthIdx]
    omega
  rw [hcount]
  rfl

/-! ## Claim C1: shape of the monthly chunks -/

/-- Claim C1, counterexample to the claim as stated.  The claim says the
first chunk starts at start_date 00:00:00, and concretely that the input
(2022-01-15, 2022-03-10) yields a first chunk starting 2022-01-15 00:00:00.
The code sets `current = datetime.fromisoformat(start_date).replace(day=1)`,
so the first chunk starts at 2022-01-01 00:00:00 instead. -/
theorem C1_first_chunk_not_at_start_date :
    ((generate_monthly_ranges ⟨2022, 1, 15⟩ ⟨2022, 3, 10⟩).head?.map Chunk.start) =
      some ⟨2022, 1, 1, 0, 0, 0⟩ ∧
    ((⟨2022, 1, 1, 0, 0, 0⟩ : DT) ≠ ⟨2022, 1, 15, 0, 0, 0⟩) := by
  decide

/-- Claim C1 (amended): for a valid global range with start_date at most
end_date, the TimeWindower returns one chunk per calendar month touched
(length equals the month span), the list is nonempty, the i-th chunk starts
at the first day of the i-th month at midnight (so the first chunk starts at
the FIRST OF THE MONTH of start_date, not at start_date itself), interior
chunks end at the last second of their month and the final chunk ends at
end_date 23:59:59, consecutive chunks are contiguous with no gap or overlap
(each chunk ends exactly one second before the next begins, and starts are
strictly increasing), a range within one calendar month yields exactly one
chunk covering first-of-month to end_date, and the concrete input
(2022-01-15, 2022-03-10) yields three chunks whose first starts 2022-01-01
00:00:00. -/
theorem C1_time_windower (s e : PyDate) (hs : s.valid) (he : e.valid)
    (hse : s.year < e.year ∨ (s.year = e.year ∧
      (s.month < e.month ∨ (s.month = e.month ∧ s.day ≤ e.day)))) :
    (generate_monthly_ranges s e).length = e.monthIdx + 1 - s.monthIdx ∧
    0 < (generate_monthly_ranges s e).length ∧
    (∀ i (h : i < (generate_monthly_ranges s e).length),
      ((generate_monthly_ranges s e).get ⟨i, h⟩).start = monthFirstDT (s.monthIdx + i)) ∧
    (∀ i (h : i < (generate_monthly_ranges s e).length),
      ((generate_monthly_ranges s e).get ⟨i, h⟩).stop =
        if i + 1 = (generate_monthly_ranges s e).length then ⟨e.year, e.month, e.day, 23, 59, 59⟩
        else monthLastDT (s.monthIdx + i)) ∧
    (∀ i (h : i + 1 < (generate_monthly_ranges s e).length),
      dtSubOneSec (((generate_monthly_ranges s e).get ⟨i + 1, h⟩).start) =
        ((generate_monthly_ranges s e).get ⟨i, Nat.lt_of_succ_lt h⟩).stop) ∧
    (∀ i (h : i + 1 < (generate_monthly_ranges s e).length),
      DT.ltB (((generate_monthly_ranges s e).get ⟨i, Nat.lt_of_succ_lt h⟩).start)
        (((generate_monthly_ranges s e).get ⟨i + 1, h⟩).start) = true) ∧
    (s.monthIdx = e.monthIdx →
      generate_monthly_ranges s e =
        [⟨⟨s.year, s.month, 1, 0, 0, 0⟩, ⟨e.year, e.month, e.day, 23, 59, 59⟩⟩]) ∧
    generate_monthly_ranges ⟨2022, 1, 15⟩ ⟨2022, 3, 10⟩ =
      [⟨⟨2022, 1, 1, 0, 0, 0⟩, ⟨2022, 1, 31, 23, 59, 59⟩⟩,
        ⟨⟨2022, 2, 1, 0, 0, 0⟩, ⟨2022, 2, 28, 23, 59, 59⟩⟩,
        ⟨⟨2022, 3, 1, 0, 0, 0⟩, ⟨2022, 3, 10, 23, 59, 59⟩⟩] := by
  obtain ⟨hsy1, hsy2, hsm1, hsm2, hsd1, hsd2⟩ := hs
  obtain ⟨hey1, hey2, hem1, hem2, hed1, hed2⟩ := he
  have hgen := generate_eq_mkChunks s e hsm1 hsm2
    ⟨hey1, hey2, hem1, hem2, hed1, hed2⟩
  have hmle : s.monthIdx ≤ e.monthIdx := by
    simp only [PyDate.monthIdx]
    omega
  have hlen : (generate_monthly_ranges s e).length = e.monthIdx + 1 - s.monthIdx := by
    rw [hgen, mkChunks_length]
  have hgetAt : ∀ i (h : i < (generate_monthly_ranges s e).length),
      (generate_monthly_ranges s e).get ⟨i, h⟩ =
        ⟨monthFirstDT (s.monthIdx + i),
          if i + 1 = e.monthIdx + 1 - s.monthIdx then clampEnd ⟨e.year, e.month, e.day, 0, 0, 0⟩
          else monthLastDT (s.monthIdx + i)⟩ := by
    intro i h
    have hi : i < e.monthIdx + 1 - s.monthIdx := by omega
    have h2 := mkChunks_get? (e.monthIdx + 1 - s.monthIdx) s.monthIdx
      ⟨e.year, e.month, e.day, 0, 0, 0⟩ i hi
    rw [← hgen, List.get?_eq_get h] at h2
    exact Option.some.inj h2
  refine ⟨hlen, by omega, ?_, ?_, ?_, ?_, ?_, by decide⟩
  · intro i h
    rw [hgetAt i h]
  · intro i h
    rw [hgetAt i h, hlen]
    rfl
  · intro i h
    rw [hgetAt (i + 1) h, hgetAt i (Nat.lt_of_succ_lt h)]
    rw [hlen] at h
    have hne2 : ¬ (i + 1 = e.monthIdx + 1 - s.monthIdx) := by omega
    show dtSubOneSec (monthFirstDT (s.monthIdx + (i + 1))) =
      if i + 1 = e.monthIdx + 1 - s.monthIdx then clampEnd ⟨e.year, e.month, e.day, 0, 0, 0⟩
      else monthLastDT (s.monthIdx + i)
    rw [if_neg hne2]
    have e1 : s.monthIdx + (i + 1) = (s.monthIdx + i) + 1 := by omega
    rw [e1, subOneSec_monthFirst]
  · intro i h
    rw [hgetAt (i + 1) h, hgetAt i (Nat.lt_of_succ_lt h)]
    have e1 : s.monthIdx + (i + 1) = (s.monthIdx + i) + 1 := by omega
    show DT.ltB (monthFirstDT (s.monthIdx + i)) (monthFirstDT (s.monthIdx + (i + 1))) = true
    rw [e1]
    exact ltB_monthFirst (s.monthIdx + i)
  · intro heq
    have h1 : e.monthIdx + 1 - s.monthIdx = 1 := by omega
    rw [hgen, h1, mkChunks, mkChunks]
    have h2 : monthFirstDT s.monthIdx = ⟨s.year, s.month, 1, 0, 0, 0⟩ := by
      rw [show (s.monthIdx : Nat) = s.year * 12 + (s.month - 1) from rfl]
      exact monthFirstDT_eq s.year s.month hsm1 hsm2
    rw [h2]
    rfl

/-- Claim C1 witness: the amended theorem applied to the concrete range
(2022-01-15, 2022-03-10); its chunk count is the month span, three. -/
theorem C1_time_windower_witness :
    (generate_monthly_ranges ⟨2022, 1, 15⟩ ⟨2022, 3, 10⟩).length =
      (⟨2022, 3, 10⟩ : PyDate).monthIdx + 1 - (⟨2022, 1, 15⟩ : PyDate).monthIdx :=
  (C1_time_windower ⟨2022, 1, 15⟩ ⟨2022, 3, 10⟩ (by decide) (by decide)
    (by decide)).1

/-! ## Claim C10: the day-of-month of start_date is ignored -/

/-- Claim C10: `generate_monthly_ranges` never uses the day-of-month of
start_date: its output depends only on the year and month of start_date;
whenever it produces chunks at all, the first chunk starts at 00:00:00 on
the first day of the month containing start_date; and when start_date is
strictly after end_date but the first of the month of start_date is still
on or before end_date (equivalently, both dates lie in the same month), the
function returns the non-empty chunk list covering first-of-month 00:00:00
to end_date 23:59:59 rather than an empty list or an error. -/
theorem C10_windower_ignores_start_day (s s2 e : PyDate)
    (hsm1 : 1 ≤ s.month) (hsm2 : s.month ≤ 12) (he : e.valid) :
    (s.year = s2.year → s.month = s2.month →
      generate_monthly_ranges s e = generate_monthly_ranges s2 e) ∧
    (s.monthIdx ≤ e.monthIdx →
      (generate_monthly_ranges s e).head?.map Chunk.start =
        some ⟨s.year, s.month, 1, 0, 0, 0⟩) ∧
    (¬ (s.year < e.year ∨ (s.year = e.year ∧
        (s.month < e.month ∨ (s.month = e.month ∧ s.day ≤ e.day)))) →
      s.monthIdx ≤ e.monthIdx →
      generate_monthly_ranges s e =
        [⟨⟨s.year, s.month, 1, 0, 0, 0⟩, ⟨e.year, e.month, e.day, 23, 59, 59⟩⟩]) := by
  obtain ⟨hey1, hey2, hem1, hem2, hed1, hed2⟩ := he
  have hgen := generate_eq_mkChunks s e hsm1 hsm2
    ⟨hey1, hey2, hem1, hem2, hed1, hed2⟩
  have hfirst : monthFirstDT s.monthIdx = ⟨s.year, s.month, 1, 0, 0, 0⟩ := by
    rw [show (s.monthIdx : Nat) = s.year * 12 + (s.month - 1) from rfl]
    exact monthFirstDT_eq s.year s.month hsm1 hsm2
  refine ⟨?_, ?_, ?_⟩
  · intro h1 h2
    unfold generate_monthly_ranges
    rw [h1, h2]
  · intro hmle
    have hN : e.monthIdx + 1 - s.monthIdx = (e.monthIdx - s.monthIdx) + 1 := by omega
    rw [hgen, hN, mkChunks]
    simp only [List.head?_cons, Option.map_some']
    rw [hfirst]
  · intro hafter hmle
    have heq : e.monthIdx + 1 - s.monthIdx = 1 := by
      simp only [PyDate.monthIdx] at hmle ⊢
      omega
    rw [hgen, heq, mkChunks, mkChunks, hfirst]
    rfl

/-- Claim C10 witness: with start 2022-01-15 strictly after end 2022-01-10
(but in the same month), the function returns the single chunk from
2022-01-01 00:00:00 to 2022-01-10 23:59:59, and the result is unchanged
when the start day 15 is replaced by day 3. -/
theorem C10_windower_ignores_start_day_witness :
    generate_monthly_ranges ⟨2022, 1, 15⟩ ⟨2022, 1, 10⟩ =
      [⟨⟨2022, 1, 1, 0, 0, 0⟩, ⟨2022, 1, 10, 23, 59, 59⟩⟩] ∧
    generate_monthly_ranges ⟨2022, 1, 15⟩ ⟨2022, 1, 10⟩ =
      generate_monthly_ranges ⟨2022, 1, 3⟩ ⟨2022, 1, 10⟩ :=
  ⟨(C10_windower_ignores_start_day ⟨2022, 1, 15⟩ ⟨2022, 1, 3⟩ ⟨2022, 1, 10⟩
      (by decide) (by decide) (by decide)).2.2 (by decide) (by decide),
    (C10_windower_ignores_start_day ⟨2022, 1, 15⟩ ⟨2022, 1, 3⟩ ⟨2022, 1, 10⟩
      (by decide) (by decide) (by decide)).1 rfl rfl⟩

/-! ## Lemmas about the strptime model -/

theorem digitVal_digitChar (k : Nat) (hk : k < 10) :
    digitVal (Nat.digitChar k) = some k := by
  interval_cases k <;> decide

theorem take2_digitChar (p : Nat → Bool) (v : Nat) (hv : v ≤ 99) (hp : p v = true)
    (rest : List Char) :
    take2 p (Nat.digitChar (v / 10) :: Nat.digitChar (v % 10) :: rest) = some (v, rest) := by
  have h1 : v / 10 < 10 := by omega
  have h2 : v % 10 < 10 := by omega
  have hv2 : 10 * (v / 10) + v % 10 = v := by omega
  simp only [take2, digitVal_digitChar _ h1, digitVal_digitChar _ h2, hv2, hp, if_true]

theorem spS_eval (s : Nat) (hs : s ≤ 61) (rest : List Char) :
    spS (Nat.digitChar (s / 10) :: Nat.digitChar (s % 10) :: rest) = some (s, rest) := by
  rw [spS, take2_digitChar _ s (by omega) (by simpa using hs) rest]
  simp only [Option.orElse]

theorem spMS_eval (mi s : Nat) (hmi : mi ≤ 59) (hs : s ≤ 61) (rest : List Char) :
    spMS (Nat.digitChar (mi / 10) :: Nat.digitChar (mi % 10) ::
      Nat.digitChar (s / 10) :: Nat.digitChar (s % 10) :: rest) = some (mi, s, rest) := by
  rw [spMS, take2_digitChar _ mi (by omega) (by simpa using hmi) _]
  simp only [spS_eval s hs rest, Option.map_some', Option.orElse]

theorem spHMS_eval (h mi s : Nat) (hh : h ≤ 23) (hmi : mi ≤ 59) (hs : s ≤ 61)
    (rest : List Char) :
    spHMS (Nat.digitChar (h / 10) :: Nat.digitChar (h % 10) ::
      Nat.digitChar (mi / 10) :: Nat.digitChar (mi % 10) ::
      Nat.digitChar (s / 10) :: Nat.digitChar (s % 10) :: rest) = some (h, mi, s, rest) := by
  rw [spHMS, take2_digitChar _ h (by omega) (by simpa using hh) _]
  simp only [spMS_eval mi s hmi hs rest, Option.map_some', Option.orElse]

theorem digitChar_ne_space (k : Nat) (hk : k < 10) : ¬ Nat.digitChar k = ' ' := by
  interval_cases k <;> decide

theorem spDHMS_eval (d h mi s : Nat) (hd1 : 1 ≤ d) (hd2 : d ≤ 31) (hh : h ≤ 23)
    (hmi : mi ≤ 59) (hs : s ≤ 61) (rest : List Char) :
    spDHMS (Nat.digitChar (d / 10) :: Nat.digitChar (d % 10) ::
      Nat.digitChar (h / 10) :: Nat.digitChar (h % 10) ::
      Nat.digitChar (mi / 10) :: Nat.digitChar (mi % 10) ::
      Nat.digitChar (s / 10) :: Nat.digitChar (s % 10) :: rest) = some (d, h, mi, s, rest) := by
  rw [spDHMS, take2_digitChar _ d (by omega) (by simp [hd1, hd2]) _]
  simp only [spHMS_eval h mi s hh hmi hs rest, Option.map_some', Option.orElse]
  intro c rest1 hcontra
  refine digitChar_ne_space (d / 10) (by omega) ?_
  injection hcontra

theorem spMoDHMS_eval (mo d h mi s : Nat) (hmo1 : 1 ≤ mo) (hmo2 : mo ≤ 12)
    (hd1 : 1 ≤ d) (hd2 : d ≤ 31) (hh : h ≤ 23) (hmi : mi ≤ 59) (hs : s ≤ 61)
    (rest : List Char) :
    spMoDHMS (Nat.digitChar (mo / 10) :: Nat.digitChar (mo % 10) ::
      Nat.digitChar (d / 10) :: Nat.digitChar (d % 10) ::
      Nat.digitChar (h / 10) :: Nat.digitChar (h % 10) ::
      Nat.digitChar (mi / 10) :: Nat.digitChar (mi % 10) ::
      Nat.digitChar (s / 10) :: Nat.digitChar (s % 10) :: rest) =
      some (mo, d, h, mi, s, rest) := by
  rw [spMoDHMS, take2_digitChar _ mo (by omega) (by simp [hmo1, hmo2]) _]
  simp only [spDHMS_eval d h mi s hd1 hd2 hh hmi hs rest, Option.map_some', Option.orElse]

theorem strptime_toCompact (y mo d h mi s : Nat) (hy : y ≤ 9999) (hmo1 : 1 ≤ mo)
    (hmo2 : mo ≤ 12) (hd1 : 1 ≤ d) (hd2 : d ≤ 31) (hh : h ≤ 23) (hmi : mi ≤ 59)
    (hs : s ≤ 61) :
    strptimeYmdHMS (toCompact y mo d h mi s).data = some ((y, mo, d, h, mi, s), []) := by
  show strptimeYmdHMS (Nat.digitChar (y / 1000 % 10) :: Nat.digitChar (y / 100 % 10) ::
    Nat.digitChar (y / 10 % 10) :: Nat.digitChar (y % 10) :: _) = _
  rw [strptimeYmdHMS, digitVal_digitChar _ (by omega), digitVal_digitChar _ (by omega),
    digitVal_digitChar _ (by omega), digitVal_digitChar _ (by omega)]
  have hy4 : 1000 * (y / 1000 % 10) + 100 * (y / 100 % 10) + 10 * (y / 10 % 10) + y % 10 = y := by
    omega
  simp only [spMoDHMS_eval mo d h mi s hmo1 hmo2 hd1 hd2 hh hmi hs [], Option.map_some', hy4]

theorem digitVal_isDigit {c : Char} {a : Nat} (h : digitVal c = some a) :
    c.isDigit = true := by
  by_cases hd : c.isDigit = true
  · exact hd
  · rw [digitVal, if_neg hd] at h
    cases h

theorem take2_shape {p : Nat → Bool} {cs : List Char} {v : Nat} {rest : List Char}
    (h : take2 p cs = some (v, rest)) :
    ∃ c1 c2, cs = c1 :: c2 :: rest ∧ c1.isDigit = true ∧ c2.isDigit = true := by
  cases cs with
  | nil => simp [take2] at h
  | cons c1 cs1 =>
    cases cs1 with
    | nil => simp [take2] at h
    | cons c2 rest2 =>
      refine ⟨c1, c2, ?_⟩
      simp only [take2] at h
      cases hd1 : digitVal c1 with
      | none => rw [hd1] at h; cases h
      | some a =>
        cases hd2 : digitVal c2 with
        | none => rw [hd1, hd2] at h; cases h
        | some b =>
          rw [hd1, hd2] at h
          have h4 : (if p (10 * a + b) = true then some ((10 * a + b : Nat), rest2)
              else none) = some (v, rest) := h
          by_cases hp : p (10 * a + b) = true
          · rw [if_pos hp] at h4
            have h3 := Option.some.inj h4
            have hrest : rest2 = rest := congrArg Prod.snd h3
            exact ⟨by rw [hrest], digitVal_isDigit hd1, digitVal_isDigit hd2⟩
          · rw [if_neg hp] at h4
            cases h4

theorem take1_shape {p : Nat → Bool} {cs : List Char} {v : Nat} {rest : List Char}
    (h : take1 p cs = some (v, rest)) :
    ∃ c1, cs = c1 :: rest ∧ c1.isDigit = true := by
  cases cs with
  | nil => simp [take1] at h
  | cons c1 rest2 =>
    refine ⟨c1, ?_⟩
    simp only [take1] at h
    cases hd1 : digitVal c1 with
    | none => rw [hd1] at h; cases h
    | some a =>
      rw [hd1] at h
      have h4 : (if p a = true then some ((a : Nat), rest2) else none) = some (v, rest) := h
      by_cases hp : p a = true
      · rw [if_pos hp] at h4
        have h3 := Option.some.inj h4
        have hrest : rest2 = rest := congrArg Prod.snd h3
        exact ⟨by rw [hrest], digitVal_isDigit hd1⟩
      · rw [if_neg hp] at h4
        cases h4

theorem spS_shape {cs : List Char} {v : Nat} {rest : List Char}
    (h : spS cs = some (v, rest)) :
    ∃ pre, cs = pre ++ rest ∧ ∀ c ∈ pre, c.isDigit = true := by
  rw [spS] at h
  cases h2 : take2 (fun v => v ≤ 61) cs with
  | some pr =>
    rw [h2] at h
    simp only [Option.orElse] at h
    have hpr : pr = (v, rest) := Option.some.inj h
    obtain ⟨c1, c2, hcs, hd1, hd2⟩ := take2_shape (hpr ▸ h2)
    exact ⟨[c1, c2], by simpa using hcs, by simp [hd1, hd2]⟩
  | none =>
    rw [h2] at h
    simp only [Option.orElse] at h
    obtain ⟨c1, hcs, hd1⟩ := take1_shape h
    exact ⟨[c1], by simpa using hcs, by simp [hd1]⟩

theorem spMS_shape {cs : List Char} {v1 v2 : Nat} {rest : List Char}
    (h : spMS cs = some (v1, v2, rest)) :
    ∃ pre, cs = pre ++ rest ∧ ∀ c ∈ pre, c.isDigit = true := by
  rw [spMS] at h
  split at h
  next m rest1 heq =>
    cases h3 : spS rest1 with
    | some pr2 =>
      obtain ⟨s0, rest2⟩ := pr2
      rw [h3] at h
      simp only [Option.map_some', Option.orElse] at h
      have hrest : rest2 = rest := congrArg (fun t => t.2.2) (Option.some.inj h)
      obtain ⟨c1, c2, hcs, hd1, hd2⟩ := take2_shape heq
      obtain ⟨pre2, hsplit, hdig⟩ := spS_shape h3
      refine ⟨c1 :: c2 :: pre2, ?_, ?_⟩
      · rw [hcs, hsplit, hrest]
        simp
      · intro c hc
        simp only [List.mem_cons] at hc
        rcases hc with rfl | rfl | hc
        · exact hd1
        · exact hd2
        · exact hdig c hc
    | none =>
      rw [h3] at h
      simp only [Option.map_none', Option.orElse] at h
      split at h
      next m1 rest3 heq2 =>
        cases h7 : spS rest3 with
        | some pr4 =>
          obtain ⟨s1, rest4⟩ := pr4
          rw [h7] at h
          simp only [Option.map_some'] at h
          have hrest : rest4 = rest := congrArg (fun t => t.2.2) (Option.some.inj h)
          obtain ⟨c1, hcs, hd1⟩ := take1_shape heq2
          obtain ⟨pre2, hsplit, hdig⟩ := spS_shape h7
          refine ⟨c1 :: pre2, ?_, ?_⟩
          · rw [hcs, hsplit, hrest]
            simp
          · intro c hc
            simp only [List.mem_cons] at hc
            rcases hc with rfl | hc
            · exact hd1
            · exact hdig c hc
        | none =>
          rw [h7] at h
          simp only [Option.map_none'] at h
          cases h
      next heq2 => cases h
  next heq =>
    simp only [Option.orElse] at h
    split at h
    next m1 rest3 heq2 =>
      cases h7 : spS rest3 with
      | some pr4 =>
        obtain ⟨s1, rest4⟩ := pr4
        rw [h7] at h
        simp only [Option.map_some'] at h
        have hrest : rest4 = rest := congrArg (fun t => t.2.2) (Option.some.inj h)
        obtain ⟨c1, hcs, hd1⟩ := take1_shape heq2
        obtain ⟨pre2, hsplit, hdig⟩ := spS_shape h7
        refine ⟨c1 :: pre2, ?_, ?_⟩
        · rw [hcs, hsplit, hrest]
          simp
        · intro c hc
          simp only [List.mem_cons] at hc
          rcases hc with rfl | hc
          · exact hd1
          · exact hdig c hc
      | none =>
        rw [h7] at h
        simp only [Option.map_none'] at h
        cases h
    next heq2 => cases h

theorem spHMS_shape {cs : List Char} {v1 v2 v3 : Nat} {rest : List Char}
    (h : spHMS cs = some (v1, v2, v3, rest)) :
    ∃ pre, cs = pre ++ rest ∧ ∀ c ∈ pre, c.isDigit = true := by
  rw [spHMS] at h
  split at h
  next m rest1 heq =>
    cases h3 : spMS rest1 with
    | some pr2 =>
      obtain ⟨x1, x2, rest2⟩ := pr2
      rw [h3] at h
      simp only [Option.map_some', Option.orElse] at h
      have hrest : rest2 = rest := congrArg (fun t => t.2.2.2) (Option.some.inj h)
      obtain ⟨c1, c2, hcs, hd1, hd2⟩ := take2_shape heq
      obtain ⟨pre2, hsplit, hdig⟩ := spMS_shape h3
      refine ⟨c1 :: c2 :: pre2, ?_, ?_⟩
      · rw [hcs, hsplit, hrest]
        simp
      · intro c hc
        simp only [List.mem_cons] at hc
        rcases hc with rfl | rfl | hc
        · exact hd1
        · exact hd2
        · exact hdig c hc
    | none =>
      rw [h3] at h
      simp only [Option.map_none', Option.orElse] at h
      split at h
      next m1 rest3 heq2 =>
        cases h7 : spMS rest3 with
        | some pr4 =>
          obtain ⟨x1, x2, rest4⟩ := pr4
          rw [h7] at h
          simp only [Option.map_some'] at h
          have hrest : rest4 = rest := congrArg (fun t => t.2.2.2) (Option.some.inj h)
          obtain ⟨c1, hcs, hd1⟩ := take1_shape heq2
          obtain ⟨pre2, hsplit, hdig⟩ := spMS_shape h7
          refine ⟨c1 :: pre2, ?_, ?_⟩
          · rw [hcs, hsplit, hrest]
            simp
          · intro c hc
            simp only [List.mem_cons] at hc
            rcases hc with rfl | hc
            · exact hd1
            · exact hdig c hc
        | none =>
          rw [h7] at h
          simp only [Option.map_none'] at h
          cases h
      next heq2 => cases h
  next heq =>
    simp only [Option.orElse] at h
    split at h
    next m1 rest3 heq2 =>
      cases h7 : spMS rest3 with
      | some pr4 =>
        obtain ⟨x1, x2, rest4⟩ := pr4
        rw [h7] at h
        simp only [Option.map_some'] at h
        have hrest : rest4 = rest := congrArg (fun t => t.2.2.2) (Option.some.inj h)
        obtain ⟨c1, hcs, hd1⟩ := take1_shape heq2
        obtain ⟨pre2, hsplit, hdig⟩ := spMS_shape h7
        refine ⟨c1 :: pre2, ?_, ?_⟩
        · rw [hcs, hsplit, hrest]
          simp
        · intro c hc
          simp only [List.mem_cons] at hc
          rcases hc with rfl | hc
          · exact hd1
          · exact hdig c hc
      | none =>
        rw [h7] at h
        simp only [Option.map_none'] at h
        cases h
    next heq2 => cases h

theorem spDHMS_space_shape {cs : List Char} {v1 v2 v3 v4 : Nat} {rest : List Char}
    (h : (match cs with
      | ' ' :: c :: rest2 =>
        match digitVal c with
        | some v =>
          if 1 ≤ v then (spHMS rest2).map (fun t => (v, t)) else none
        | none => none
      | _ => none) = some (v1, v2, v3, v4, rest)) :
    ∃ pre, cs = pre ++ rest ∧ ∀ c ∈ pre, (c.isDigit = true ∨ c = ' ') := by
  split at h
  next c rest5 =>
    split at h
    next v hdv =>
      split at h
      next hv =>
        cases h3 : spHMS rest5 with
        | some pr =>
          obtain ⟨a, b, cc, rest6⟩ := pr
          rw [h3] at h
          simp only [Option.map_some'] at h
          have hrest : rest6 = rest := congrArg (fun t => t.2.2.2.2) (Option.some.inj h)
          obtain ⟨pre2, hsplit, hdig⟩ := spHMS_shape h3
          refine ⟨' ' :: c :: pre2, ?_, ?_⟩
          · rw [hsplit, hrest]
            simp
          · intro x hx
            simp only [List.mem_cons] at hx
            rcases hx with rfl | rfl | hx
            · exact Or.inr rfl
            · exact Or.inl (digitVal_isDigit hdv)
            · exact Or.inl (hdig x hx)
        | none =>
          rw [h3] at h
          simp only [Option.map_none'] at h
          cases h
      next hv => cases h
    next hdv => cases h
  next => cases h

theorem orElse_eq_some {α : Type} {x : Option α} {f : Unit → Option α} {r : α}
    (h : x.orElse f = some r) : x = some r ∨ (x = none ∧ f () = some r) := by
  cases x with
  | some a => exact Or.inl h
  | none => exact Or.inr ⟨rfl, h⟩

theorem spDHMS_shape {cs : List Char} {v1 v2 v3 v4 : Nat} {rest : List Char}
    (h : spDHMS cs = some (v1, v2, v3, v4, rest)) :
    ∃ pre, cs = pre ++ rest ∧ ∀ c ∈ pre, (c.isDigit = true ∨ c = ' ') := by
  delta spDHMS at h
  rcases orElse_eq_some h with hAB | ⟨hABn, hC⟩
  · rcases orElse_eq_some hAB with hA | ⟨hAn, hB⟩
    · split at hA
      next d0 rest1 heq =>
        rcases Option.map_eq_some'.mp hA with ⟨t, hsp, hmk⟩
        obtain ⟨x1, x2, x3, rest2⟩ := t
        have hrest : rest2 = rest := congrArg (fun q => q.2.2.2.2) hmk
        obtain ⟨c1, c2, hcs, hd1, hd2⟩ := take2_shape heq
        obtain ⟨pre2, hsplit, hdig⟩ := spHMS_shape hsp
        refine ⟨c1 :: c2 :: pre2, ?_, ?_⟩
        · rw [hcs, hsplit, hrest]
          simp
        · intro c hc
          simp only [List.mem_cons] at hc
          rcases hc with rfl | rfl | hc
          · exact Or.inl hd1
          · exact Or.inl hd2
          · exact Or.inl (hdig c hc)
      next heq => cases hA
    · have hB2 : (match take1 (fun v => 1 ≤ v) cs with
          | some (d, rest) => (spHMS rest).map (fun t => (d, t))
          | none => none) = some (v1, v2, v3, v4, rest) := hB
      split at hB2
      next d0 rest1 heq =>
        rcases Option.map_eq_some'.mp hB2 with ⟨t, hsp, hmk⟩
        obtain ⟨x1, x2, x3, rest2⟩ := t
        have hrest : rest2 = rest := congrArg (fun q => q.2.2.2.2) hmk
        obtain ⟨c1, hcs, hd1⟩ := take1_shape heq
        obtain ⟨pre2, hsplit, hdig⟩ := spHMS_shape hsp
        refine ⟨c1 :: pre2, ?_, ?_⟩
        · rw [hcs, hsplit, hrest]
          simp
        · intro c hc
          simp only [List.mem_cons] at hc
          rcases hc with rfl | hc
          · exact Or.inl hd1
          · exact Or.inl (hdig c hc)
      next heq => cases hB2
  · exact spDHMS_space_shape hC

theorem spMoDHMS_shape {cs : List Char} {v1 v2 v3 v4 v5 : Nat} {rest : List Char}
    (h : spMoDHMS cs = some (v1, v2, v3, v4, v5, rest)) :
    ∃ pre, cs = pre ++ rest ∧ ∀ c ∈ pre, (c.isDigit = true ∨ c = ' ') := by
  rw [spMoDHMS] at h
  rcases orElse_eq_some h with hA | ⟨hAn, hB⟩
  · split at hA
    next mo0 rest1 heq =>
      rcases Option.map_eq_some'.mp hA with ⟨t, hsp, hmk⟩
      obtain ⟨x1, x2, x3, x4, rest2⟩ := t
      have hrest : rest2 = rest := congrArg (fun q => q.2.2.2.2.2) hmk
      obtain ⟨c1, c2, hcs, hd1, hd2⟩ := take2_shape heq
      obtain ⟨pre2, hsplit, hdig⟩ := spDHMS_shape hsp
      refine ⟨c1 :: c2 :: pre2, ?_, ?_⟩
      · rw [hcs, hsplit, hrest]
        simp
      · intro c hc
        simp only [List.mem_cons] at hc
        rcases hc with rfl | rfl | hc
        · exact Or.inl hd1
        · exact Or.inl hd2
        · exact hdig c hc
    next heq => cases hA
  · have hB2 : (match take1 (fun v => 1 ≤ v) cs with
        | some (mo, rest) => (spDHMS rest).map (fun t => (mo, t))
        | none => none) = some (v1, v2, v3, v4, v5, rest) := hB
    split at hB2
    next mo0 rest1 heq =>
      rcases Option.map_eq_some'.mp hB2 with ⟨t, hsp, hmk⟩
      obtain ⟨x1, x2, x3, x4, rest2⟩ := t
      have hrest : rest2 = rest := congrArg (fun q => q.2.2.2.2.2) hmk
      obtain ⟨c1, hcs, hd1⟩ := take1_shape heq
      obtain ⟨pre2, hsplit, hdig⟩ := spDHMS_shape hsp
      refine ⟨c1 :: pre2, ?_, ?_⟩
      · rw [hcs, hsplit, hrest]
        simp
      · intro c hc
        simp only [List.mem_cons] at hc
        rcases hc with rfl | hc
        · exact Or.inl hd1
        · exact hdig c hc
    next heq => cases hB2

theorem strptime_shape {cs : List Char} {t : Nat × Nat × Nat × Nat × Nat × Nat}
    {rest : List Char} (h : strptimeYmdHMS cs = some (t, rest)) :
    ∃ pre, cs = pre ++ rest ∧ ∀ c ∈ pre, (c.isDigit = true ∨ c = ' ') := by
  delta strptimeYmdHMS at h
  split at h
  next c1 c2 c3 c4 rest0 =>
    split at h
    next a b c d hv1 hv2 hv3 hv4 =>
      rcases Option.map_eq_some'.mp h with ⟨u, hsp, hmk⟩
      obtain ⟨x1, x2, x3, x4, x5, rest5⟩ := u
      have hrest : rest5 = rest := congrArg Prod.snd hmk
      obtain ⟨pre2, hsplit, hdig⟩ := spMoDHMS_shape hsp
      refine ⟨c1 :: c2 :: c3 :: c4 :: pre2, ?_, ?_⟩
      · rw [hsplit, hrest]
        simp
      · intro c hc
        simp only [List.mem_cons] at hc
        rcases hc with rfl | rfl | rfl | rfl | hc
        · exact Or.inl (digitVal_isDigit hv1)
        · exact Or.inl (digitVal_isDigit hv2)
        · exact Or.inl (digitVal_isDigit hv3)
        · exact Or.inl (digitVal_isDigit hv4)
        · exact hdig c hc
    next => cases h
  next => cases h

theorem daysInMonth_le31 (y mo : Nat) : daysInMonth y mo ≤ 31 := by
  unfold daysInMonth
  split <;> first | omega | (split_ifs <;> omega)

/-! ## Claim C4: the compact timestamp normalizer -/

/-- Claim C4, counterexample to the claim as stated.  The claim counts a
wrong-length input and non-numeric content among the parse failures mapped
to null, but CPython strptime field widths are flexible: the nine-character
string 202311000 parses as 2023-01-01 00:00:00, and a string with a space
before a one-digit day also parses. -/
theorem C4_wrong_length_parses :
    normalize_published_time "202311000" = some "2023-01-01 00:00:00" ∧
    "202311000".length ≠ 14 ∧
    normalize_published_time "20231 5120000" = some "2023-01-05 12:00:00" ∧
    (' ' ∈ "20231 5120000".data ∧ ¬ (' '.isDigit = true)) := by
  refine ⟨by decide, by decide, by decide, by decide, by decide⟩

/-- Claim C4 (amended): `normalize_published_time` never raises: the empty
string and every string whose characters cannot be consumed by the pattern
(in particular any string containing a character that is neither a digit nor
a space) yield null, and so does every all-digit 14-character string whose
fields denote an impossible date; every compact YYYYMMDDHHMMSS rendering of
a valid civil time parses to the ISO YYYY-MM-DD HH:MM:SS form, concretely
20230615120000 to 2023-06-15 12:00:00.  The flexible field widths of
CPython strptime mean that wrong length by itself is not a parse failure. -/
theorem C4_normalizer (str : String) (y mo d h mi s : Nat) :
    normalize_published_time "" = none ∧
    normalize_published_time "20230615120000" = some "2023-06-15 12:00:00" ∧
    ((∃ c ∈ str.data, ¬ c.isDigit = true ∧ ¬ c = ' ') →
      normalize_published_time str = none) ∧
    (1 ≤ y → y ≤ 9999 → 1 ≤ mo → mo ≤ 12 → 1 ≤ d → d ≤ daysInMonth y mo →
      h ≤ 23 → mi ≤ 59 → s ≤ 59 →
      normalize_published_time (toCompact y mo d h mi s) =
        some (formatIsoYmdHMS y mo d h mi s)) ∧
    (y ≤ 9999 → 1 ≤ mo → mo ≤ 12 → 1 ≤ d → d ≤ 31 → h ≤ 23 → mi ≤ 59 → s ≤ 61 →
      (y = 0 ∨ daysInMonth y mo < d ∨ 60 ≤ s) →
      normalize_published_time (toCompact y mo d h mi s) = none) := by
  refine ⟨by decide, by decide, ?_, ?_, ?_⟩
  · rintro ⟨c0, hc0, hnd, hns⟩
    by_cases hs0 : str = ""
    · rw [normalize_published_time, if_pos hs0]
    · rw [normalize_published_time, if_neg hs0]
      cases hp : strptimeYmdHMS str.data with
      | none => rfl
      | some pr =>
        obtain ⟨t6, leftover⟩ := pr
        obtain ⟨y0, mo0, d0, h0, mi0, s0⟩ := t6
        cases leftover with
        | nil =>
          exfalso
          obtain ⟨pre, hsplit, hdig⟩ := strptime_shape hp
          rw [List.append_nil] at hsplit
          rcases hdig c0 (hsplit ▸ hc0) with hd | hd
          · exact hnd hd
          · exact hns hd
        | cons x xs => rfl
  · intro hy1 hy2 hmo1 hmo2 hd1 hdim hh hmi hs
    have hne : toCompact y mo d h mi s ≠ "" :=
      fun hcontra => List.noConfusion (congrArg String.data hcontra)
    rw [normalize_published_time, if_neg hne]
    have hd31 : d ≤ 31 := le_trans hdim (daysInMonth_le31 y mo)
    rw [strptime_toCompact y mo d h mi s hy2 hmo1 hmo2 hd1 hd31 hh hmi (by omega)]
    have hvc : validCivil y mo d h mi s = true := by
      simp only [validCivil, Bool.and_eq_true, decide_eq_true_eq]
      omega
    show (if validCivil y mo d h mi s = true then some (formatIsoYmdHMS y mo d h mi s)
      else none) = some (formatIsoYmdHMS y mo d h mi s)
    rw [if_pos hvc]
  · intro hy2 hmo1 hmo2 hd1 hd31 hh hmi hs hbad
    have hne : toCompact y mo d h mi s ≠ "" :=
      fun hcontra => List.noConfusion (congrArg String.data hcontra)
    rw [normalize_published_time, if_neg hne]
    rw [strptime_toCompact y mo d h mi s hy2 hmo1 hmo2 hd1 hd31 hh hmi hs]
    have hvc : ¬ validCivil y mo d h mi s = true := by
      simp only [validCivil, Bool.and_eq_true, decide_eq_true_eq]
      omega
    show (if validCivil y mo d h mi s = true then some (formatIsoYmdHMS y mo d h mi s)
      else none) = none
    rw [if_neg hvc]

/-- Claim C4 witness: the positive direction of the amended theorem applied
to the civil time 2023-06-15 12:00:00, and the impossible-date direction
applied to February 30. -/
theorem C4_normalizer_witness :
    normalize_published_time (toCompact 2023 6 15 12 0 0) =
      some (formatIsoYmdHMS 2023 6 15 12 0 0) ∧
    normalize_published_time (toCompact 2023 2 30 12 0 0) = none :=
  ⟨(C4_normalizer "" 2023 6 15 12 0 0).2.2.2.1 (by decide) (by decide) (by decide)
      (by decide) (by decide) (by decide) (by decide) (by decide) (by decide),
    (C4_normalizer "" 2023 2 30 12 0 0).2.2.2.2 (by decide) (by decide) (by decide)
      (by decide) (by decide) (by decide) (by decide) (by decide) (by decide)⟩


theorem buildArticleRecords_total (kw : String) :
    ∀ items : List Json, (∀ j ∈ items, ∃ o, j = Json.obj o) →
      ∃ recs, buildArticleRecords kw items = Except.ok recs := by
  intro items
  induction items with
  | nil => intro _; exact ⟨[], rfl⟩
  | cons j rest ih =>
    intro h
    obtain ⟨o, ho⟩ := h j (List.mem_cons_self j rest)
    obtain ⟨recs, hrecs⟩ := ih (fun x hx => h x (List.mem_cons_of_mem j hx))
    subst ho
    have hstep : buildArticleRecords kw (Json.obj o :: rest) =
        Except.bind (buildArticleRecords kw rest)
          (fun others => Except.ok (makeArticleRecord kw o :: others)) := rfl
    rw [hstep, hrecs]
    exact ⟨makeArticleRecord kw o :: recs, rfl⟩

/-! ## Claim C3: field-extraction failures during normalization -/

/-- Claim C3, counterexample.  The comment path is not total: a comment
item without the nested snippet raises KeyError; with a valid in-range
timestamp, a missing top-level id raises KeyError inside the append, and a
non-numeric likeCount string raises ValueError at the int coercion.  None
of these defaults to a placeholder. -/
theorem C3_comment_path_raises :
    processCommentItem startInstant endInstant (videoOf "v" "k") (Json.obj .nil) =
      .error (.keyErr "snippet") ∧
    processCommentItem startInstant endInstant (videoOf "v" "k") itemNoId =
      .error (.keyErr "id") ∧
    processCommentItem startInstant endInstant (videoOf "v" "k")
      (commentItem "2023-06-15T12:00:00+00:00" (.str "abc")) =
      .error (.valueErr "invalid literal for int with base 10") := by
  refine ⟨rfl, rfl, rfl⟩

/-- Claim C3 (amended): the `.get`-guarded extractions never raise — the
article record builder is total over lists of dicts and an empty article
dict yields all placeholders, and a comment item whose snippet dict lacks
the `.get`-guarded fields is skipped (missing timestamp defaults to the
empty string, which fails to parse) or kept with the like-count default 0 —
but the comment path's raw subscripts (the nested snippet chain, the
item id) and the bare `int(...)` coercion can still raise. -/
theorem C3_normalization (kw : String) (items : List Json) :
    ((∀ j ∈ items, ∃ o, j = Json.obj o) →
      ∃ recs, buildArticleRecords kw items = Except.ok recs) ∧
    makeArticleRecord kw JsonObj.nil =
      ⟨.str "", .str "", .str "", .str "", .str "", .str "", .null, kw, "gdelt"⟩ ∧
    processCommentItem startInstant endInstant (videoOf "v" "k")
      itemEmptyCommentSnippet = .ok none ∧
    processCommentItem startInstant endInstant (videoOf "v" "k")
      (commentItem "not-a-date" (.str "junk")) = .ok none ∧
    processCommentItem startInstant endInstant (videoOf "v" "k") itemNoLikes =
      .ok (some ⟨.str "v", .str "Demo video", .str "Demo channel",
        .str "2022-05-01T00:00:00Z", .str "c1", .str "", 0,
        "2023-06-15T12:00:00+00:00", "k"⟩) := by
  refine ⟨buildArticleRecords_total kw items, rfl, rfl, rfl, rfl⟩

/-- Claim C3 witness: the amended theorem applied to a singleton list of
one empty article dict, and to the comment item with an unparsable
timestamp and garbage like count. -/
theorem C3_normalization_witness :
    (∃ recs, buildArticleRecords "ai" [Json.obj JsonObj.nil] = Except.ok recs) ∧
    processCommentItem startInstant endInstant (videoOf "v" "k")
      (commentItem "not-a-date" (.str "junk")) = .ok none :=
  ⟨(C3_normalization "ai" [Json.obj JsonObj.nil]).1
      (by intro j hj; rw [List.mem_singleton] at hj; exact ⟨JsonObj.nil, hj⟩),
    (C3_normalization "ai" []).2.2.2.1⟩


theorem processCommentItem_commentItem (startI endI : Int) (v : VideoRec)
    (ts : String) (likes : Json) :
    processCommentItem startI endI v (commentItem ts likes) =
      match pyFromIso (replaceZ ts) with
      | none => .ok none
      | some (.naive _ _ _ _ _ _ _) =>
        .error (.typeErr "cannot compare offset-naive and offset-aware datetimes")
      | some (.aware t) =>
        if t < startI || endI < t then .ok none
        else (pyToInt likes).bind (fun lk =>
          .ok (some ⟨v.video_id, v.video_title, v.channel, v.video_published_at,
            .str "c1", .str "nice video", lk, ts, v.keyword⟩)) := rfl

/-! ## Claim C5: comment timestamp filtering and the article asymmetry -/

/-- Claim C5, counterexample.  A comment timestamp without a UTC offset
parses successfully to a timezone-naive datetime; the claim then requires
the comment to be retained or discarded by the range filter, but the code
raises TypeError at the naive-vs-aware comparison instead (the comparison
is outside the try-except guarding the parse). -/
theorem C5_naive_timestamp_crashes :
    pyFromIso (replaceZ "2023-06-15T12:00:00") = some (.naive 2023 6 15 12 0 0 0) ∧
    processCommentItem startInstant endInstant (videoOf "v" "k")
      (commentItem "2023-06-15T12:00:00" (.num 3)) =
      .error (.typeErr "cannot compare offset-naive and offset-aware datetimes") :=
  ⟨rfl, rfl⟩

/-- Claim C5 (amended): an unparsable comment timestamp makes the comment
skipped entirely (never retained with a null timestamp); a timestamp parsed
to an aware instant is retained exactly when the instant lies within
[start, end] with both bounds inclusive; a timestamp parsed to a naive
datetime raises TypeError at the comparison with the aware bounds; by
contrast every article record survives normalization, and an article whose
timestamp fails normalization is present with published_at_iso = none. -/
theorem C5_comment_filtering (startI endI : Int) (v : VideoRec) (ts : String)
    (n t : Int) :
    (pyFromIso (replaceZ ts) = none →
      processCommentItem startI endI v (commentItem ts (.num n)) = .ok none) ∧
    (pyFromIso (replaceZ ts) = some (.aware t) → startI ≤ t → t ≤ endI →
      processCommentItem startI endI v (commentItem ts (.num n)) =
        .ok (some ⟨v.video_id, v.video_title, v.channel, v.video_published_at,
          .str "c1", .str "nice video", n, ts, v.keyword⟩)) ∧
    (pyFromIso (replaceZ ts) = some (.aware t) → (t < startI ∨ endI < t) →
      processCommentItem startI endI v (commentItem ts (.num n)) = .ok none) ∧
    (∀ y mo d h mi s micro,
      pyFromIso (replaceZ ts) = some (.naive y mo d h mi s micro) →
      processCommentItem startI endI v (commentItem ts (.num n)) =
        .error (.typeErr "cannot compare offset-naive and offset-aware datetimes")) ∧
    (∀ recs : List ArticleRec, (addIsoColumn recs).map ArticleRow.art = recs) ∧
    (∀ rec : ArticleRec, normalizePublishedField rec.published_at = none →
      (⟨rec, none⟩ : ArticleRow) ∈ addIsoColumn [rec]) := by
  refine ⟨?_, ?_, ?_, ?_, ?_, ?_⟩
  · intro h
    rw [processCommentItem_commentItem, h]
  · intro h h1 h2
    rw [processCommentItem_commentItem, h]
    have hcond : (decide (t < startI) || decide (endI < t)) = false := by
      simp only [Bool.or_eq_false_iff, decide_eq_false_iff_not, not_lt]
      exact ⟨h1, h2⟩
    show (if t < startI || endI < t then Except.ok none
      else (pyToInt (Json.num n)).bind (fun lk =>
        Except.ok (some (CommentRec.mk v.video_id v.video_title v.channel
          v.video_published_at (Json.str "c1") (Json.str "nice video") lk ts
          v.keyword)))) = _
    rw [hcond]
    simp only [Bool.false_eq_true, if_false]
    rfl
  · intro h h2
    rw [processCommentItem_commentItem, h]
    have hcond : (decide (t < startI) || decide (endI < t)) = true := by
      simp only [Bool.or_eq_true, decide_eq_true_eq]
      exact h2
    show (if t < startI || endI < t then Except.ok none
      else (pyToInt (Json.num n)).bind (fun lk =>
        Except.ok (some (CommentRec.mk v.video_id v.video_title v.channel
          v.video_published_at (Json.str "c1") (Json.str "nice video") lk ts
          v.keyword)))) = Except.ok none
    rw [hcond, if_pos rfl]
  · intro y mo d h mi s micro hiso
    rw [processCommentItem_commentItem, hiso]
  · intro recs
    induction recs with
    | nil => rfl
    | cons r rest ih =>
      show r :: (addIsoColumn rest).map ArticleRow.art = r :: rest
      rw [ih]
  · intro rec h
    simp [addIsoColumn, h]

/-- Claim C5 witness: the amended theorem retains the comment stamped
2023-06-15T12:00:00+00:00 under the shipped 2022-01-01..2025-12-08 bounds. -/
theorem C5_comment_filtering_witness :
    processCommentItem startInstant endInstant (videoOf "v" "k")
      (commentItem "2023-06-15T12:00:00+00:00" (.num 3)) =
      .ok (some ⟨.str "v", .str "Demo video", .str "Demo channel",
        .str "2022-05-01T00:00:00Z", .str "c1", .str "nice video", 3,
        "2023-06-15T12:00:00+00:00", "k"⟩) :=
  (C5_comment_filtering startInstant endInstant (videoOf "v" "k")
    "2023-06-15T12:00:00+00:00" 3 (utcInstant 2023 6 15 12 0 0)).2.1 rfl
    (by decide) (by decide)


theorem processPage_cons {ρ : Type} (handler : Json → Except PyErr (Option ρ))
    (maxN : Nat) (item : Json) (rest : List Json) (fetched : Nat) :
    processPage handler maxN (item :: rest) fetched =
      match handler item with
      | .error e => .error e
      | .ok none => processPage handler maxN rest fetched
      | .ok (some r) =>
        if maxN ≤ fetched + 1 then .ok ([r], fetched + 1)
        else match processPage handler maxN rest (fetched + 1) with
          | .error e => .error e
          | .ok (rs, f2) => .ok (r :: rs, f2) := rfl

theorem pagedFetch_unfold {ρ : Type} (handler : Json → Except PyErr (Option ρ))
    (maxN : Nat) (pages : List (Except Unit Page)) (fetched : Nat) :
    pagedFetch handler maxN pages fetched =
      (if maxN ≤ fetched then (.ok ([], 0) : Except PyErr (List ρ × Nat))
       else match pages with
         | [] => .ok ([], 1)
         | .error _ :: _ => .ok ([], 1)
         | .ok p :: rest =>
           match processPage handler maxN p.items fetched with
           | .error e => .error e
           | .ok (rs, fetched2) =>
             match p.nextToken with
             | none => .ok (rs, 1)
             | some t =>
               if t = "" then .ok (rs, 1)
               else match pagedFetch handler maxN rest fetched2 with
                 | .error e => .error e
                 | .ok (rs2, n) => .ok (rs ++ rs2, n + 1)) := by
  rw [pagedFetch.eq_def]

theorem pagedFetch_stop {ρ : Type} (handler : Json → Except PyErr (Option ρ))
    (maxN : Nat) (pages : List (Except Unit Page)) (fetched : Nat)
    (h : maxN ≤ fetched) :
    pagedFetch handler maxN pages fetched = .ok ([], 0) := by
  rw [pagedFetch_unfold, if_pos h]

theorem pagedFetch_exhausted {ρ : Type} (handler : Json → Except PyErr (Option ρ))
    (maxN : Nat) (fetched : Nat) (h : ¬ maxN ≤ fetched) :
    pagedFetch handler maxN [] fetched = .ok ([], 1) := by
  rw [pagedFetch_unfold, if_neg h]

theorem pagedFetch_errorPage {ρ : Type} (handler : Json → Except PyErr (Option ρ))
    (maxN : Nat) (u : Unit) (rest : List (Except Unit Page)) (fetched : Nat)
    (h : ¬ maxN ≤ fetched) :
    pagedFetch handler maxN (.error u :: rest) fetched = .ok ([], 1) := by
  rw [pagedFetch_unfold, if_neg h]

theorem pagedFetch_cons_ok {ρ : Type} (handler : Json → Except PyErr (Option ρ))
    (maxN : Nat) (p : Page) (rest : List (Except Unit Page)) (fetched : Nat)
    (h : ¬ maxN ≤ fetched) :
    pagedFetch handler maxN (.ok p :: rest) fetched =
      match processPage handler maxN p.items fetched with
      | .error e => .error e
      | .ok (rs, fetched2) =>
        match p.nextToken with
        | none => .ok (rs, 1)
        | some t =>
          if t = "" then .ok (rs, 1)
          else match pagedFetch handler maxN rest fetched2 with
            | .error e => .error e
            | .ok (rs2, n) => .ok (rs ++ rs2, n + 1) := by
  rw [pagedFetch_unfold, if_neg h]

theorem processPage_all_some {ρ : Type} (handler : Json → Except PyErr (Option ρ))
    (maxN : Nat) :
    ∀ (items : List Json) (fetched : Nat),
      (∀ item ∈ items, ∃ r, handler item = .ok (some r)) →
      fetched + items.length ≤ maxN →
      ∃ rs, processPage handler maxN items fetched = .ok (rs, fetched + items.length) ∧
        rs.length = items.length := by
  intro items
  induction items with
  | nil => intro fetched _ _; exact ⟨[], rfl, rfl⟩
  | cons item rest ih =>
    intro fetched hall hcap
    obtain ⟨r, hr⟩ := hall item (List.mem_cons_self item rest)
    by_cases hc : maxN ≤ fetched + 1
    · have hrest : rest = [] := by
        have : rest.length = 0 := by
          simp only [List.length_cons] at hcap
          omega
        exact List.length_eq_zero.mp this
      subst hrest
      refine ⟨[r], ?_, rfl⟩
      rw [processPage_cons, hr]
      simp [hc]
    · obtain ⟨rs, hrs, hlen⟩ := ih (fetched + 1)
        (fun x hx => hall x (List.mem_cons_of_mem item hx))
        (by simp only [List.length_cons] at hcap; omega)
      refine ⟨r :: rs, ?_, by simp [hlen]⟩
      rw [processPage_cons, hr]
      simp only [hc, if_false]
      rw [hrs]
      simp only [List.length_cons]
      have harith : fetched + 1 + rest.length = fetched + (rest.length + 1) := by omega
      rw [harith]

theorem pagedFetch_script {ρ : Type} (handler : Json → Except PyErr (Option ρ))
    (maxN : Nat) (lastPg : Page) :
    ∀ (ps : List Page) (fetched : Nat),
      (∀ p ∈ ps, ∃ t, p.nextToken = some t ∧ t ≠ "") →
      (∀ p ∈ ps, ∀ item ∈ p.items, ∃ r, handler item = .ok (some r)) →
      (∀ item ∈ lastPg.items, ∃ r, handler item = .ok (some r)) →
      lastPg.nextToken = none →
      strictBelowCap ps fetched maxN = true →
      fetched + itemCount ps + lastPg.items.length ≤ maxN →
      fetched < maxN →
      ∃ rs, pagedFetch handler maxN ((ps ++ [lastPg]).map Except.ok) fetched =
          .ok (rs, ps.length + 1) ∧
        rs.length = itemCount ps + lastPg.items.length := by
  intro ps
  induction ps with
  | nil =>
    intro fetched _ _ hlast htokNone _ hcap hflt
    obtain ⟨rs, hrs, hlen⟩ := processPage_all_some handler maxN lastPg.items fetched
      hlast (by simp [itemCount] at hcap; omega)
    refine ⟨rs, ?_, by rw [hlen]; simp [itemCount]⟩
    have hnotle : ¬ maxN ≤ fetched := by omega
    simp only [List.nil_append, List.map_cons, List.map_nil]
    rw [pagedFetch_cons_ok handler maxN lastPg [] fetched hnotle, hrs, htokNone]
    rfl
  | cons p rest ih =>
    intro fetched htoks hall hlast htokNone hpre hcap hflt
    obtain ⟨t, htkn, htne⟩ := htoks p (List.mem_cons_self p rest)
    obtain ⟨rs1, hrs1, hlen1⟩ := processPage_all_some handler maxN p.items fetched
      (hall p (List.mem_cons_self p rest))
      (by simp [itemCount] at hcap; omega)
    simp only [strictBelowCap, Bool.and_eq_true, decide_eq_true_eq] at hpre
    obtain ⟨hplt, hpre3⟩ := hpre
    obtain ⟨rs2, hrs2, hlen2⟩ := ih (fetched + p.items.length)
      (fun q hq => htoks q (List.mem_cons_of_mem p hq))
      (fun q hq => hall q (List.mem_cons_of_mem p hq))
      hlast htokNone hpre3
      (by simp [itemCount] at hcap ⊢; omega) hplt
    refine ⟨rs1 ++ rs2, ?_, by simp [hlen1, hlen2, itemCount]; omega⟩
    have hnotle : ¬ maxN ≤ fetched := by omega
    simp only [List.cons_append, List.map_cons]
    rw [pagedFetch_cons_ok handler maxN p _ fetched hnotle, hrs1, htkn]
    simp only [htne, if_false]
    rw [hrs2]
    simp only [List.length_cons]

theorem processPage_count {ρ : Type} (handler : Json → Except PyErr (Option ρ))
    (maxN : Nat) :
    ∀ (items : List Json) (fetched : Nat) (rs : List ρ) (f2 : Nat),
      fetched < maxN →
      processPage handler maxN items fetched = .ok (rs, f2) →
      f2 = fetched + rs.length ∧ f2 ≤ maxN := by
  intro items
  induction items with
  | nil =>
    intro fetched rs f2 hf h
    have h2 : (Except.ok (([] : List ρ), fetched) : Except PyErr (List ρ × Nat)) =
        .ok (rs, f2) := h
    simp only [Except.ok.injEq, Prod.mk.injEq] at h2
    obtain ⟨h3, h4⟩ := h2
    subst h3
    subst h4
    simp only [List.length_nil]
    omega
  | cons item rest ih =>
    intro fetched rs f2 hf h
    rw [processPage_cons] at h
    cases hh : handler item with
    | error e =>
      rw [hh] at h
      exact Except.noConfusion h
    | ok or =>
      cases or with
      | none =>
        rw [hh] at h
        have h2 : processPage handler maxN rest fetched = .ok (rs, f2) := h
        exact ih fetched rs f2 hf h2
      | some r =>
        rw [hh] at h
        by_cases hc : maxN ≤ fetched + 1
        · have h2 : (if maxN ≤ fetched + 1 then Except.ok ([r], fetched + 1)
              else match processPage handler maxN rest (fetched + 1) with
                | .error e => .error e
                | .ok (rs, f2) => .ok (r :: rs, f2)) = Except.ok (rs, f2) := h
          rw [if_pos hc] at h2
          simp only [Except.ok.injEq, Prod.mk.injEq] at h2
          obtain ⟨h3, h4⟩ := h2
          subst h3
          subst h4
          refine ⟨by simp, by omega⟩
        · have h2 : (if maxN ≤ fetched + 1 then Except.ok ([r], fetched + 1)
              else match processPage handler maxN rest (fetched + 1) with
                | .error e => .error e
                | .ok (rs, f2) => .ok (r :: rs, f2)) = Except.ok (rs, f2) := h
          rw [if_neg hc] at h2
          cases hrec : processPage handler maxN rest (fetched + 1) with
          | error e =>
            rw [hrec] at h2
            exact Except.noConfusion h2
          | ok pr =>
            obtain ⟨rs0, f0⟩ := pr
            rw [hrec] at h2
            have h3 : (Except.ok (r :: rs0, f0) : Except PyErr (List ρ × Nat)) =
                .ok (rs, f2) := h2
            simp only [Except.ok.injEq, Prod.mk.injEq] at h3
            obtain ⟨h4, h5⟩ := h3
            obtain ⟨hA, hB⟩ := ih (fetched + 1) rs0 f0 (by omega) hrec
            subst h4
            subst h5
            refine ⟨by simp only [List.length_cons]; omega, hB⟩

theorem pagedFetch_count {ρ : Type} (handler : Json → Except PyErr (Option ρ))
    (maxN : Nat) :
    ∀ (pages : List (Except Unit Page)) (fetched : Nat) (rs : List ρ) (n : Nat),
      fetched ≤ maxN →
      pagedFetch handler maxN pages fetched = .ok (rs, n) →
      fetched + rs.length ≤ maxN := by
  intro pages
  induction pages with
  | nil =>
    intro fetched rs n hf h
    by_cases hc : maxN ≤ fetched
    · rw [pagedFetch_stop handler maxN [] fetched hc] at h
      simp only [Except.ok.injEq, Prod.mk.injEq] at h
      obtain ⟨h1, _⟩ := h
      subst h1
      simp only [List.length_nil]
      omega
    · rw [pagedFetch_exhausted handler maxN fetched hc] at h
      simp only [Except.ok.injEq, Prod.mk.injEq] at h
      obtain ⟨h1, _⟩ := h
      subst h1
      simp only [List.length_nil]
      omega
  | cons pg rest ih =>
    intro fetched rs n hf h
    by_cases hc : maxN ≤ fetched
    · rw [pagedFetch_stop handler maxN (pg :: rest) fetched hc] at h
      simp only [Except.ok.injEq, Prod.mk.injEq] at h
      obtain ⟨h1, _⟩ := h
      subst h1
      simp only [List.length_nil]
      omega
    · cases pg with
      | error u =>
        rw [pagedFetch_errorPage handler maxN u rest fetched hc] at h
        simp only [Except.ok.injEq, Prod.mk.injEq] at h
        obtain ⟨h1, _⟩ := h
        subst h1
        simp only [List.length_nil]
        omega
      | ok p =>
        rw [pagedFetch_cons_ok handler maxN p rest fetched hc] at h
        cases hpp : processPage handler maxN p.items fetched with
        | error e =>
          rw [hpp] at h
          exact Except.noConfusion h
        | ok pr =>
          obtain ⟨rs1, f2⟩ := pr
          rw [hpp] at h
          obtain ⟨hA, hB⟩ := processPage_count handler maxN p.items fetched rs1 f2
            (by omega) hpp
          cases htk : p.nextToken with
          | none =>
            rw [htk] at h
            have h2 : (Except.ok (rs1, 1) : Except PyErr (List ρ × Nat)) =
                .ok (rs, n) := h
            simp only [Except.ok.injEq, Prod.mk.injEq] at h2
            obtain ⟨h3, _⟩ := h2
            subst h3
            omega
          | some t =>
            rw [htk] at h
            have h2 : (if t = "" then Except.ok (rs1, 1)
                else match pagedFetch handler maxN rest f2 with
                  | .error e => .error e
                  | .ok (rs2, n) => .ok (rs1 ++ rs2, n + 1)) =
                Except.ok (rs, n) := h
            by_cases hte : t = ""
            · rw [if_pos hte] at h2
              simp only [Except.ok.injEq, Prod.mk.injEq] at h2
              obtain ⟨h3, _⟩ := h2
              subst h3
              omega
            · rw [if_neg hte] at h2
              cases hrec : pagedFetch handler maxN rest f2 with
              | error e =>
                rw [hrec] at h2
                exact Except.noConfusion h2
              | ok pr2 =>
                obtain ⟨rs2, n2⟩ := pr2
                rw [hrec] at h2
                have h3 : (Except.ok (rs1 ++ rs2, n2 + 1) : Except PyErr (List ρ × Nat)) =
                    .ok (rs, n) := h2
                simp only [Except.ok.injEq, Prod.mk.injEq] at h3
                obtain ⟨h4, _⟩ := h3
                subst h4
                have hrec2 := ih f2 rs2 n2 hB hrec
                simp only [List.length_append]
                omega


/-! ## Claim C7: pagination termination and the caps -/

/-- Claim C7, counterexample.  Against an upstream returning a continuation
token on exactly K = 1 page then omitting it, the claim predicts K + 1 = 2
requests; but with the cap already reached after the first page the loop
re-checks the cap before requesting again, so only 1 request is issued. -/
theorem C7_early_cap_fewer_requests :
    searchKeywordLoop "ai" 1
      [.ok ⟨[searchItem "v1"], some "tok"⟩, .ok ⟨[], none⟩] =
      .ok ([⟨.str "v1", .str "T", .str "C", .str "2022-05-01T00:00:00Z", "ai"⟩], 1) ∧
    (1 : Nat) ≠ 1 + 1 :=
  ⟨rfl, by decide⟩

/-- Claim C7 (amended): the returned list never exceeds the cap (in
particular 50 per keyword in search and 500 per video for comments), and
against a K-token-then-none script the fetcher issues exactly K + 1
requests with the full union of the page items provided the accumulated
count stays strictly below the cap after every tokened page; when the cap
is reached earlier, the loop stops without issuing the remaining requests. -/
theorem C7_pagination {ρ : Type} (handler : Json → Except PyErr (Option ρ))
    (maxN : Nat) (lastPg : Page) (ps : List Page)
    (pages : List (Except Unit Page)) (fetched : Nat) (kw : String)
    (up : List (Except Unit Page)) (startI endI : Int) (v : VideoRec) :
    (∀ rs n, fetched ≤ maxN → pagedFetch handler maxN pages fetched = .ok (rs, n) →
      fetched + rs.length ≤ maxN) ∧
    (∀ vs m, searchKeywordLoop kw 50 up = .ok (vs, m) → vs.length ≤ 50) ∧
    (∀ cs m, fetch_comments_for_video startI endI 500 v up = .ok (cs, m) →
      cs.length ≤ 500) ∧
    ((∀ p ∈ ps, ∃ t, p.nextToken = some t ∧ t ≠ "") →
      (∀ p ∈ ps, ∀ item ∈ p.items, ∃ r, handler item = .ok (some r)) →
      (∀ item ∈ lastPg.items, ∃ r, handler item = .ok (some r)) →
      lastPg.nextToken = none →
      strictBelowCap ps 0 maxN = true →
      itemCount ps + lastPg.items.length ≤ maxN →
      0 < maxN →
      ∃ rs, pagedFetch handler maxN ((ps ++ [lastPg]).map Except.ok) 0 =
          .ok (rs, ps.length + 1) ∧
        rs.length = itemCount ps + lastPg.items.length) := by
  refine ⟨?_, ?_, ?_, ?_⟩
  · intro rs n hf h
    exact pagedFetch_count handler maxN pages fetched rs n hf h
  · intro vs m h
    have h2 : pagedFetch (processSearchItem kw) 50 up 0 = .ok (vs, m) := h
    have := pagedFetch_count (processSearchItem kw) 50 up 0 vs m (by omega) h2
    omega
  · intro cs m h
    have h2 : pagedFetch (processCommentItem startI endI v) 500 up 0 = .ok (cs, m) := h
    have := pagedFetch_count (processCommentItem startI endI v) 500 up 0 cs m
      (by omega) h2
    omega
  · intro htoks hall hlast htokNone hpre hcap hpos
    exact pagedFetch_script handler maxN lastPg ps 0 htoks hall hlast htokNone hpre
      (by omega) hpos

/-- Claim C7 witness: a two-page script (one tokened page of one item, then
a token-free page of one item) against the search handler with cap 50
issues exactly 2 requests and returns both items. -/
theorem C7_pagination_witness :
    ∃ rs, pagedFetch (processSearchItem "ai") 50
        (([(⟨[searchItem "v1"], some "tok"⟩ : Page)] ++
          [(⟨[searchItem "v2"], none⟩ : Page)]).map Except.ok) 0 =
        .ok (rs, 2) ∧
      rs.length = 2 := by
  have h := (C7_pagination (processSearchItem "ai") 50 ⟨[searchItem "v2"], none⟩
    [⟨[searchItem "v1"], some "tok"⟩] [] 0 "ai" [] 0 0
    (videoOf "w" "k")).2.2.2
  exact h
    (by
      intro p hp
      rw [List.mem_singleton] at hp
      subst hp
      exact ⟨"tok", rfl, by decide⟩)
    (by
      intro p hp item hi
      rw [List.mem_singleton] at hp
      subst hp
      rw [List.mem_singleton] at hi
      subst hi
      exact ⟨⟨.str "v1", .str "T", .str "C", .str "2022-05-01T00:00:00Z", "ai"⟩, rfl⟩)
    (by
      intro item hi
      rw [List.mem_singleton] at hi
      subst hi
      exact ⟨⟨.str "v2", .str "T", .str "C", .str "2022-05-01T00:00:00Z", "ai"⟩, rfl⟩)
    rfl (by decide) (by decide) (by decide)

/-! ## Claim C8: request-level failures are absorbed -/

/-- Claim C8: every request-level failure distinguished by the code
(request exception, empty body, JSON decode failure) makes
`fetch_gdelt_chunk` return the empty list instead of raising, as does a
payload without an articles key; a failing page stops the comment
pagination with the accumulated items of the pages before it (the failing
request itself is still counted as issued); and a failed cell does not
abort the run: the accumulation loops of both pipelines continue with the
remaining cells.  Concretely, an upstream failing on page 2 of a 5-page
comment script yields exactly the page-1 comments after 2 requests. -/
theorem C8_request_failures {ρ : Type} (handler : Json → Except PyErr (Option ρ))
    (maxN fetched : Nat) (kw : String) (rest : List (String × GdeltOutcome))
    (more : List ArticleRec) (rest2 : List (Except Unit Page))
    (startI endI : Int) (maxC : Nat) (v : VideoRec)
    (vrest : List (VideoRec × List (Except Unit Page))) (cs : List CommentRec) :
    fetch_gdelt_chunk kw .requestFailure = .ok [] ∧
    fetch_gdelt_chunk kw .emptyBody = .ok [] ∧
    fetch_gdelt_chunk kw .jsonDecodeFailure = .ok [] ∧
    (∀ fs, objHasKey fs "articles" = false →
      fetch_gdelt_chunk kw (.payload (.obj fs)) = .ok []) ∧
    (fetched < maxN →
      pagedFetch handler maxN (.error () :: rest2) fetched = .ok ([], 1)) ∧
    (fetch_comments_for_video startInstant endInstant 500 (videoOf "v" "k")
      [.ok ⟨[commentItem "2023-06-15T12:00:00+00:00" (.num 3)], some "t1"⟩,
       .error (),
       .ok ⟨[commentItem "2023-07-01T08:30:00+00:00" (.num 1)], some "t3"⟩,
       .ok ⟨[commentItem "2023-08-01T08:30:00+00:00" (.num 2)], some "t4"⟩,
       .ok ⟨[commentItem "2023-09-01T08:30:00+00:00" (.num 4)], none⟩] =
      .ok ([⟨.str "v", .str "Demo video", .str "Demo channel",
        .str "2022-05-01T00:00:00Z", .str "c1", .str "nice video", 3,
        "2023-06-15T12:00:00+00:00", "k"⟩], 2)) ∧
    (collect_gdelt rest = .ok more →
      collect_gdelt ((kw, .requestFailure) :: rest) = .ok more) ∧
    (0 < maxC → collect_comments startI endI maxC vrest = .ok cs →
      collect_comments startI endI maxC ((v, [.error ()]) :: vrest) = .ok cs) := by
  refine ⟨rfl, rfl, rfl, ?_, ?_, rfl, ?_, ?_⟩
  · intro fs h
    have hstep : fetch_gdelt_chunk kw (.payload (.obj fs)) =
        (if objHasKey fs "articles" = true then
          (jsonSubscript (Json.obj fs) "articles").bind (fun arts =>
            (jsonToItems arts).bind (fun items => buildArticleRecords kw items))
        else .ok []) := rfl
    rw [hstep, h]
    simp only [Bool.false_eq_true, if_false]
  · intro hlt
    exact pagedFetch_errorPage handler maxN () rest2 fetched (by omega)
  · intro h
    have hstep : collect_gdelt ((kw, GdeltOutcome.requestFailure) :: rest) =
        (collect_gdelt rest).bind (fun more2 =>
          .ok (([] : List ArticleRec) ++ more2)) := rfl
    rw [hstep, h]
    rfl
  · intro hc h
    have hf : fetch_comments_for_video startI endI maxC v [Except.error ()] =
        .ok ([], 1) :=
      pagedFetch_errorPage (processCommentItem startI endI v) maxC () [] 0 (by omega)
    have hstep : collect_comments startI endI maxC ((v, [Except.error ()]) :: vrest) =
        (fetch_comments_for_video startI endI maxC v [Except.error ()]).bind
          (fun t => (collect_comments startI endI maxC vrest).bind
            (fun more2 => .ok (t.1 ++ more2))) := rfl
    rw [hstep, hf, h]
    rfl

/-- Claim C8 witness: a run consisting of one failed GDELT cell collects
the empty list without raising, and a failing first comment page returns
no comments after the one issued request under the shipped cap 500. -/
theorem C8_request_failures_witness :
    collect_gdelt [("ai", GdeltOutcome.requestFailure)] = .ok [] ∧
    pagedFetch (processCommentItem startInstant endInstant (videoOf "v" "k"))
      500 [.error ()] 0 = .ok ([], 1) :=
  ⟨(C8_request_failures (processCommentItem startInstant endInstant
      (videoOf "v" "k")) 500 0 "ai" [] [] [] 0 0 500 (videoOf "v" "k")
      [] []).2.2.2.2.2.2.1 rfl,
    (C8_request_failures (processCommentItem startInstant endInstant
      (videoOf "v" "k")) 500 0 "x" [] [] [] 0 0 500 (videoOf "v" "k")
      [] []).2.2.2.2.1 (by decide)⟩
